import Mathlib

/-!
Verification development for the SEO aggregation layer of the codejeet
repository.

The embedded source files are:
* the SEO configuration module (display-name formatting, company tiers,
  topic descriptions, canonical URL building);
* the data-aggregation layer (company/topic aggregation, question
  deduplication, the cross-reference index, the per-company and per-topic
  question listings, the read accessors, and the process-wide build cache);
* the internal-linking module (related companies / topics / problems).

Modelling conventions, used uniformly below:
* JavaScript `Map` objects are modelled as insertion-ordered association
  lists `List (K × V)`; `Map.set` updates an existing key in place (keeping
  its position) and appends a fresh key at the end, exactly like the
  JavaScript semantics.
* `Array.prototype.sort` is stable (ES2019).  Every comparator used by the
  source is of the shape `(a, b) => f(b) - f(a)` or the tier/count variant,
  i.e. a total preorder; a stable sort for a total preorder has a unique
  result, so we model it by `List.insertionSort`, which is stable.
* JavaScript numbers carried by the data (acceptance rate, frequency) are
  modelled as rationals; the source only adds, compares, averages and
  rounds them, which floats perform exactly on this data in the intended
  range, and no claim depends on float rounding.
* `new Set(xs)` is modelled by first-occurrence deduplication (`jsDedup`);
  `Set.has` is list membership.
* Wall-clock timestamps (`new Date()`) are modelled by `Unit`.
-/

/-! ## Generic JavaScript-style helpers -/

/-- Lowercasing, modelling `String.prototype.toLowerCase` (the data is
ASCII, where `Char.toLower` agrees with the JavaScript function). -/
def lowerStr (s : String) : String :=
  String.mk (s.data.map Char.toLower)

/-- Character-list core of `String.prototype.replace(/\s+/g, "-")`: every
maximal run of whitespace becomes a single hyphen.  The flag records
whether the previous character was whitespace. -/
def collapseWsAux : Bool → List Char → List Char
  | _, [] => []
  | inWs, c :: cs =>
    if c.isWhitespace then
      (if inWs then ([] : List Char) else ['-']) ++ collapseWsAux true cs
    else c :: collapseWsAux false cs

/-- Model of `s.replace(/\s+/g, "-")`. -/
def hyphenate (s : String) : String :=
  String.mk (collapseWsAux false s.data)

/-- Model of `word.charAt(0).toUpperCase() + word.slice(1)`. -/
def jsCapitalize (w : String) : String :=
  match w.data with
  | [] => ""
  | c :: cs => String.mk (c.toUpper :: cs)

/-- Splitting a character list at every occurrence of a separator,
modelling `String.prototype.split` with a one-character separator. -/
def splitOnChar (sep : Char) : List Char → List (List Char)
  | [] => [[]]
  | c :: cs =>
    if c = sep then [] :: splitOnChar sep cs
    else
      match splitOnChar sep cs with
      | [] => [[c]]
      | g :: gs => (c :: g) :: gs

/-- First-occurrence deduplication with an accumulator of already seen
elements; models iterating a freshly built `Set`. -/
def jsDedupAux : List String → List String → List String
  | _, [] => []
  | seen, x :: xs =>
    if x ∈ seen then jsDedupAux seen xs
    else x :: jsDedupAux (x :: seen) xs

/-- Model of `Array.from(new Set(xs))`: keeps the first occurrence of each
element, in order. -/
def jsDedup (l : List String) : List String :=
  jsDedupAux [] l

/-- Replacement of the first occurrence of `pat` in a list, modelling
`String.prototype.replace` with a string pattern. -/
def replaceFirstL {α : Type} [DecidableEq α] (pat rep : List α) : List α → List α
  | [] => []
  | x :: xs =>
    if pat.isPrefixOf (x :: xs) then rep ++ (x :: xs).drop pat.length
    else x :: replaceFirstL pat rep xs

/-- Model of `s.replace(pat, rep)` (string pattern: first occurrence only). -/
def replaceFirst (s pat rep : String) : String :=
  String.mk (replaceFirstL pat.data rep.data s.data)

/-- Model of `Array.prototype.join(", ")`. -/
def joinComma : List String → String
  | [] => ""
  | [w] => w
  | w :: ws => w ++ ", " ++ joinComma ws

/-- Model of `Array.prototype.join(" ")`. -/
def joinSpace : List String → String
  | [] => ""
  | [w] => w
  | w :: ws => w ++ " " ++ joinSpace ws

/-- Model of `Math.round(x * 10) / 10` (rounding to one decimal place;
`Math.round` rounds half towards positive infinity). -/
def jsRound10 (x : ℚ) : ℚ :=
  ((⌊x * 10 + 1 / 2⌋ : ℤ) : ℚ) / 10

/-- Rendering of a number into a template string.  JavaScript float
formatting is not modelled bit-for-bit; no claim depends on it. -/
def ratToString (x : ℚ) : String :=
  toString x

/-! ## Insertion-ordered maps (JavaScript `Map`) -/

namespace JsMap

variable {α : Type}

/-- Model of `Map.prototype.get` (`undefined` becomes `none`). -/
def get : List (String × α) → String → Option α
  | [], _ => none
  | (k0, v) :: rest, k => if k0 = k then some v else get rest k

/-- Lookup with a default, modelling `map.get(k) || d` patterns (the stored
values are objects or non-empty arrays, hence never falsy). -/
def getD (m : List (String × α)) (k : String) (d : α) : α :=
  (get m k).getD d

/-- Model of `Map.prototype.set`: an existing key is updated in place, a
fresh key is appended at the end. -/
def set : List (String × α) → String → α → List (String × α)
  | [], k, v => [(k, v)]
  | (k0, v0) :: rest, k, v =>
    if k0 = k then (k, v) :: rest else (k0, v0) :: set rest k v

/-- Model of `Map.prototype.has`. -/
def hasKey (m : List (String × α)) (k : String) : Bool :=
  (get m k).isSome

/-- Model of iterating `Map.prototype.values()`. -/
def values (m : List (String × α)) : List α :=
  m.map (·.2)

/-- Model of iterating `Map.prototype.keys()`. -/
def keysList (m : List (String × α)) : List String :=
  m.map (·.1)

/-- Model of the recurring source pattern
`if (!m.has(k)) m.set(k, []); m.get(k)!.push(x)`. -/
def upsertAppend (m : List (String × List α)) (k : String) (x : α) :
    List (String × List α) :=
  set m k (getD m k [] ++ [x])

end JsMap

/-! ## Configuration module (company tiers, display names, descriptions,
canonical URLs) -/

/-- Abbreviation override table used by `formatDisplayName`. -/
def abbrevs : List (String × String) :=
  [("aws", "AWS"), ("ibm", "IBM"), ("jpmorgan", "JPMorgan"), ("ml", "ML"),
   ("ai", "AI"), ("dfs", "DFS"), ("bfs", "BFS"), ("dp", "DP"),
   ("sql", "SQL"), ("api", "API")]

/-- Model of `formatDisplayName`: split the slug on hyphens, replace known
abbreviations, capitalize the remaining words, join with spaces. -/
def formatDisplayName (slug : String) : String :=
  let words := (splitOnChar '-' slug.data).map String.mk
  joinSpace (words.map (fun word =>
    match JsMap.get abbrevs (lowerStr word) with
    | some ab => ab
    | none => jsCapitalize word))

/-- Company tier classification table from the configuration module. -/
def companyTiers : List (String × Nat) :=
  [("google", 1), ("amazon", 1), ("meta", 1), ("facebook", 1),
   ("microsoft", 1), ("apple", 1), ("netflix", 1),
   ("uber", 2), ("airbnb", 2), ("linkedin", 2), ("twitter", 2),
   ("salesforce", 2), ("adobe", 2), ("oracle", 2), ("nvidia", 2),
   ("stripe", 2), ("square", 2), ("paypal", 2), ("bloomberg", 2),
   ("snap", 2), ("spotify", 2), ("lyft", 2), ("doordash", 2),
   ("instacart", 2), ("coinbase", 2), ("robinhood", 2),
   ("databricks", 2), ("snowflake", 2), ("palantir", 2), ("splunk", 2)]

/-- Model of `getCompanyTier`: table lookup on the lowercased slug with
default tier 3. -/
def getCompanyTier (slug : String) : Nat :=
  (JsMap.get companyTiers (lowerStr slug)).getD 3

/-- Helper producing the apostrophe character for description texts. -/
def apos : String :=
  String.mk [Char.ofNat 39]

/-- Topic description table from the configuration module (keys and texts
as in the source; the apostrophes of two texts are spliced in). -/
def topicDescriptions : List (String × String) :=
  [("array", "Arrays are fundamental data structures that store elements in contiguous memory locations. Master array manipulation, two-pointer techniques, and sliding window algorithms."),
   ("hash-table", "Hash tables provide O(1) average-case lookups. Essential for frequency counting, deduplication, and mapping problems."),
   ("string", "String manipulation is crucial for coding interviews. Practice parsing, pattern matching, and character counting algorithms."),
   ("dynamic-programming", "Dynamic Programming breaks complex problems into overlapping subproblems. Master memoization, tabulation, and state transitions."),
   ("math", "Mathematical problems test number theory, combinatorics, and arithmetic algorithms. Essential for optimization problems."),
   ("sorting", "Sorting algorithms are foundational. Understand QuickSort, MergeSort, and when to use built-in sorting functions."),
   ("greedy", "Greedy algorithms make locally optimal choices. Learn to identify when greedy approaches guarantee global optimums."),
   ("depth-first-search", "DFS explores as far as possible along each branch. Essential for tree traversals and graph exploration."),
   ("breadth-first-search", "BFS explores neighbors level by level. Perfect for shortest path problems in unweighted graphs."),
   ("binary-search", "Binary search achieves O(log n) lookups in sorted data. Master variations like lower_bound and upper_bound."),
   ("tree", "Tree data structures model hierarchical relationships. Practice traversals, BST operations, and balanced trees."),
   ("matrix", "Matrix problems involve 2D array manipulation. Master traversal patterns, rotations, and dynamic programming on grids."),
   ("two-pointers", "Two-pointer technique efficiently processes sorted arrays. Essential for pair-finding and partition problems."),
   ("bit-manipulation", "Bit manipulation enables efficient low-level operations. Learn XOR properties, bit counting, and bitmasking."),
   ("binary-tree", "Binary trees have at most two children per node. Practice recursive and iterative traversal algorithms."),
   ("heap", "Heaps maintain partial ordering for efficient min/max operations. Essential for priority queues and top-K problems."),
   ("prefix-sum", "Prefix sums enable O(1) range queries after O(n) preprocessing. Crucial for subarray sum problems."),
   ("simulation", "Simulation problems require careful step-by-step implementation. Practice following complex instructions precisely."),
   ("stack", "Stacks follow LIFO ordering. Essential for expression parsing, nested structures, and monotonic stack problems."),
   ("counting", "Counting problems involve frequency analysis and combinatorics. Master counting techniques for complex enumerations."),
   ("sliding-window", "Sliding window maintains a moving window over data. Perfect for substring and subarray optimization problems."),
   ("linked-list", "Linked lists use pointer-based node connections. Practice reversal, cycle detection, and merge operations."),
   ("graph", "Graphs model connections between entities. Master representations, traversals, and shortest path algorithms."),
   ("backtracking", "Backtracking systematically explores solution spaces. Essential for permutations, combinations, and constraint satisfaction."),
   ("binary-search-tree", "BSTs maintain sorted order for efficient operations. Practice insertion, deletion, and balance maintenance."),
   ("union-find", "Union-Find efficiently tracks connected components. Essential for dynamic connectivity and cycle detection."),
   ("ordered-set", "Ordered sets maintain sorted elements with efficient operations. Useful for range queries and neighbor finding."),
   ("recursion", "Recursion solves problems by breaking them into smaller instances. Master base cases and recursive relations."),
   ("trie", "Tries efficiently store and search strings. Essential for autocomplete and prefix matching problems."),
   ("divide-and-conquer", "Divide and conquer breaks problems into independent subproblems. Foundation for MergeSort and QuickSort."),
   ("monotonic-stack", "Monotonic stacks maintain ordered elements. Perfect for next-greater-element and histogram problems."),
   ("design", "Design problems test system and data structure design skills. Practice LRU cache, iterators, and custom structures."),
   ("number-theory", "Number theory involves properties of integers. Master GCD, primality testing, and modular arithmetic."),
   ("geometry", "Geometry problems involve coordinates and shapes. Practice distance calculations and convex hull algorithms."),
   ("segment-tree", "Segment trees enable efficient range queries and updates. Essential for advanced competitive programming."),
   ("topological-sort", "Topological sort orders directed acyclic graphs. Essential for dependency resolution and course scheduling."),
   ("binary-indexed-tree", "Binary Indexed Trees (Fenwick Trees) support efficient prefix operations. Alternative to segment trees for simpler cases."),
   ("shortest-path", "Shortest path algorithms find optimal routes. Master Dijkstra" ++ apos ++ "s, Bellman-Ford, and Floyd-Warshall."),
   ("bitmask", "Bitmask DP uses bits to represent subsets. Enables efficient subset enumeration and state tracking."),
   ("queue", "Queues follow FIFO ordering. Essential for BFS, task scheduling, and level-order traversals."),
   ("combinatorics", "Combinatorics counts arrangements and selections. Master permutations, combinations, and inclusion-exclusion."),
   ("rolling-hash", "Rolling hash enables efficient string comparison. Essential for pattern matching and duplicate detection."),
   ("minimum-spanning-tree", "MST connects all vertices with minimum total edge weight. Master Kruskal" ++ apos ++ "s and Prim" ++ apos ++ "s algorithms."),
   ("strongly-connected-component", "SCCs are maximal strongly connected subgraphs. Essential for graph decomposition and 2-SAT."),
   ("eulerian-circuit", "Eulerian circuits visit every edge exactly once. Apply to path-finding with edge constraints.")]

/-- Site URL from the configuration (the environment override is absent in
the modelled deployment). -/
def seoSiteUrl : String :=
  "https://codejeet.vercel.app"

/-- Canonical URL pattern table from the configuration. -/
def canonicalPatterns : List (String × String) :=
  [("home", "/"), ("companies", "/companies"), ("topics", "/topics"),
   ("problems", "/problems"), ("company", "/company/\x7bslug\x7d"),
   ("topic", "/topic/\x7bslug\x7d"), ("problem", "/problem/\x7bslug\x7d"),
   ("companyTopic", "/company/\x7bcompany\x7d/\x7btopic\x7d"),
   ("difficulty", "/difficulty/\x7blevel\x7d"),
   ("systemDesign", "/system-design/\x7bslug\x7d")]

/-- Model of `getCanonicalUrl`: take the pattern for the page type and
substitute each parameter for its placeholder. -/
def getCanonicalUrl (pageType : String) (params : List (String × String)) : String :=
  let pattern := (JsMap.get canonicalPatterns pageType).getD ""
  let replaced := params.foldl
    (fun pat kv => replaceFirst pat ("\x7b" ++ kv.1 ++ "\x7d") kv.2) pattern
  seoSiteUrl ++ replaced

/-! ## Data model

The raw record type comes from the data-loading module, which is outside
the embedded sources; its shape is fixed by the fields the aggregation
layer reads. -/

/-- Modelled from the spec: the raw question record supplied by the data
source (`QuestionWithDetails` in the data-loading module, which only
declares the record shape).  Field names follow the source accesses;
`isPremiumRaw` stands for the CSV column read as a string and compared to
the letter Y.  The difficulty is kept as a raw string: the spec restricts
well-formed data to Easy, Medium and Hard, and the aggregation code
lowercases whatever string arrives without validating it. -/
structure QuestionWithDetails where
  id : Nat
  slug : String
  title : String
  difficulty : String
  topics : List String
  acceptance_rate : ℚ
  company : String
  frequency : ℚ
  timeframe : String
  isPremiumRaw : String
  link : String
deriving DecidableEq, Repr

/-- Difficulty tallies of a record group. -/
structure DifficultyBreakdown where
  easy : Nat
  medium : Nat
  hard : Nat
deriving DecidableEq, Repr

/-- Topic occurrence count used for the top-topics list of a company. -/
structure TopicCount where
  slug : String
  name : String
  count : Nat
deriving DecidableEq, Repr

/-- Company occurrence count used for the top-companies list of a topic. -/
structure CompanyCount where
  slug : String
  name : String
  count : Nat
deriving DecidableEq, Repr

/-- One (company, frequency) pair attached to a deduplicated question. -/
structure CompanyFrequency where
  company : String
  displayName : String
  frequency : ℚ
  timeframe : String
deriving DecidableEq, Repr

/-- Aggregated company entity (timestamps modelled by `Unit`). -/
structure Company where
  slug : String
  name : String
  displayName : String
  questionCount : Nat
  uniqueQuestionCount : Nat
  difficultyBreakdown : DifficultyBreakdown
  topTopics : List TopicCount
  averageAcceptance : ℚ
  averageFrequency : ℚ
  lastUpdated : Unit
deriving DecidableEq, Repr

/-- Aggregated topic entity. -/
structure Topic where
  slug : String
  name : String
  questionCount : Nat
  difficultyBreakdown : DifficultyBreakdown
  topCompanies : List CompanyCount
  description : String
  relatedTopics : List String
deriving DecidableEq, Repr

/-- Deduplicated question entity. -/
structure UniqueQuestion where
  id : Nat
  slug : String
  title : String
  difficulty : String
  topics : List String
  acceptanceRate : ℚ
  companies : List CompanyFrequency
  isPremium : Bool
  leetcodeUrl : String
  seoDescription : String
  relatedQuestions : List String
deriving DecidableEq, Repr

/-- Question carrying its per-company context. -/
structure QuestionWithCompanyContext where
  id : Nat
  slug : String
  title : String
  difficulty : String
  topics : List String
  acceptanceRate : ℚ
  frequency : ℚ
  timeframe : String
  isPremium : Bool
  leetcodeUrl : String
deriving DecidableEq, Repr

/-- Aggregate statistics of one (company, topic) intersection. -/
structure CompanyTopicCrossRef where
  companySlug : String
  companyName : String
  topicSlug : String
  topicName : String
  questionCount : Nat
  difficultyBreakdown : DifficultyBreakdown
deriving DecidableEq, Repr

/-- The four lookup views built by the cross-reference pass. -/
structure CrossReferenceIndex where
  companyTopics : List (String × List CompanyTopicCrossRef)
  topicCompanies : List (String × List CompanyTopicCrossRef)
  questionCompanies : List (String × List String)
  questionTopics : List (String × List String)
deriving DecidableEq, Repr

/-- Internal link descriptor produced by the linking module. -/
structure InternalLink where
  href : String
  text : String
  title : String
  priority : ℚ
deriving DecidableEq, Repr

/-- Snapshot statistics (the build timestamp is modelled by `Unit`). -/
structure BuildStats where
  totalCompanies : Nat
  totalTopics : Nat
  totalUniqueQuestions : Nat
  totalQuestionRecords : Nat
  lastBuilt : Unit
deriving DecidableEq, Repr

/-- The whole aggregated snapshot. -/
structure BuildCache where
  companies : List (String × Company)
  topics : List (String × Topic)
  questions : List (String × UniqueQuestion)
  crossRefs : CrossReferenceIndex
  companyQuestions : List (String × List QuestionWithCompanyContext)
  topicQuestions : List (String × List QuestionWithCompanyContext)
  stats : BuildStats
deriving DecidableEq, Repr

/-! ## Aggregation engine -/

/-- Model of `calculateDifficultyBreakdown`.  The source increments
`breakdown[difficulty]` after lowercasing; when the lowercased difficulty
is not one of the three declared buckets, the JavaScript statement writes a
stray object property and leaves the three declared buckets unchanged,
which is what the final branch captures. -/
def calculateDifficultyBreakdown (questions : List QuestionWithDetails) :
    DifficultyBreakdown :=
  questions.foldl (fun breakdown q =>
    let difficulty := lowerStr q.difficulty
    if difficulty = "easy" then { breakdown with easy := breakdown.easy + 1 }
    else if difficulty = "medium" then { breakdown with medium := breakdown.medium + 1 }
    else if difficulty = "hard" then { breakdown with hard := breakdown.hard + 1 }
    else breakdown) ⟨0, 0, 0⟩

/-- Model of `calculateTopTopics`: count topic occurrences, sort by count
descending (stable), truncate, and render. -/
def calculateTopTopics (questions : List QuestionWithDetails) (limit : Nat) :
    List TopicCount :=
  let topicCounts := questions.foldl (fun m q =>
    q.topics.foldl (fun m topic => JsMap.set m topic (JsMap.getD m topic 0 + 1)) m) []
  ((List.insertionSort (fun a b : String × Nat => b.2 ≤ a.2) topicCounts).take limit).map
    (fun p => { slug := hyphenate (lowerStr p.1), name := p.1, count := p.2 })

/-- Model of `calculateTopCompanies`: count records per company, sort by
tier ascending then count descending (stable), truncate, and render. -/
def calculateTopCompanies (questions : List QuestionWithDetails) (limit : Nat) :
    List CompanyCount :=
  let companyCounts := questions.foldl (fun m q =>
    JsMap.set m q.company (JsMap.getD m q.company 0 + 1)) []
  ((List.insertionSort
      (fun a b : String × Nat =>
        getCompanyTier a.1 < getCompanyTier b.1 ∨
          (getCompanyTier a.1 = getCompanyTier b.1 ∧ b.2 ≤ a.2))
      companyCounts).take limit).map
    (fun p => { slug := p.1, name := formatDisplayName p.1, count := p.2 })

/-- Model of `calculateRelatedTopics`: co-occurrence counts of the other
topics across the records containing the target topic, sorted by count
descending, truncated, and slugified. -/
def calculateRelatedTopics (questions : List QuestionWithDetails)
    (targetTopic : String) (limit : Nat) : List String :=
  let targetLower := lowerStr targetTopic
  let cooccurrence := questions.foldl (fun m q =>
    if q.topics.any (fun t => lowerStr t = targetLower) then
      q.topics.foldl (fun m topic =>
        if lowerStr topic ≠ targetLower then
          JsMap.set m topic (JsMap.getD m topic 0 + 1)
        else m) m
    else m) []
  ((List.insertionSort (fun a b : String × Nat => b.2 ≤ a.2) cooccurrence).take limit).map
    (fun p => hyphenate (lowerStr p.1))

/-- Model of `findRelatedQuestions`: score every record of a different
slug (one point for matching difficulty, two per case-insensitive topic
overlap), keep positive scores, sort descending, truncate to the limit,
return the slugs.  A slug occurring in several records is rescored and
overwritten in place, as `Map.set` does. -/
def findRelatedQuestions (questions : List QuestionWithDetails)
    (target : QuestionWithDetails) (limit : Nat) : List String :=
  let scores := questions.foldl (fun m q =>
    if q.slug = target.slug then m
    else
      let overlap := (q.topics.filter (fun t =>
        target.topics.any (fun tt => lowerStr tt = lowerStr t))).length
      let score := (if q.difficulty = target.difficulty then 1 else 0) + overlap * 2
      if score > 0 then JsMap.set m q.slug score else m) []
  ((List.insertionSort (fun a b : String × Nat => b.2 ≤ a.2) scores).take limit).map (·.1)

/-- Model of `generateQuestionDescription`. -/
def generateQuestionDescription (q : QuestionWithDetails)
    (companies : List CompanyFrequency) : String :=
  let companyNames := (companies.take 3).map (·.displayName)
  let topicsText := joinComma (q.topics.take 3)
  q.title ++ " is a " ++ q.difficulty ++ " difficulty problem with " ++
    ratToString q.acceptance_rate ++ "% acceptance rate. " ++
    "Asked by " ++ joinComma companyNames ++
    (if companies.length > 3 then
      " and " ++ toString (companies.length - 3) ++ " more companies"
    else "") ++
    ". Topics: " ++ topicsText ++ "."

/-- Body of the company-aggregation loop of `aggregateCompanies`,
factored out of the loop for reuse in the proofs. -/
def mkCompany (companySlug : String)
    (companyQuestions : List QuestionWithDetails) : Company :=
  let difficultyBreakdown := calculateDifficultyBreakdown companyQuestions
  let topTopics := calculateTopTopics companyQuestions 10
  let uniqueQuestionSlugs := jsDedup (companyQuestions.map (·.slug))
  let avgAcceptance :=
    (companyQuestions.map (·.acceptance_rate)).sum / (companyQuestions.length : ℚ)
  let avgFrequency :=
    (companyQuestions.map (·.frequency)).sum / (companyQuestions.length : ℚ)
  { slug := companySlug, name := companySlug,
    displayName := formatDisplayName companySlug,
    questionCount := companyQuestions.length,
    uniqueQuestionCount := uniqueQuestionSlugs.length,
    difficultyBreakdown, topTopics,
    averageAcceptance := jsRound10 avgAcceptance,
    averageFrequency := jsRound10 avgFrequency,
    lastUpdated := () }

/-- Model of `aggregateCompanies`: one entry per company of the company
list with at least one record, then a stable sort by tier ascending and
question count descending (the source wraps the sorted entries in a new
`Map`, which the sorted association list models directly). -/
def aggregateCompanies (questions : List QuestionWithDetails)
    (companyList : List String) : List (String × Company) :=
  let companies := companyList.foldl (fun m companySlug =>
    let companyQuestions := questions.filter (fun q => q.company = companySlug)
    if companyQuestions.length = 0 then m
    else JsMap.set m companySlug (mkCompany companySlug companyQuestions)) []
  List.insertionSort
    (fun a b : String × Company =>
      getCompanyTier a.1 < getCompanyTier b.1 ∨
        (getCompanyTier a.1 = getCompanyTier b.1 ∧
          b.2.questionCount ≤ a.2.questionCount))
    companies

/-- Body of the topic-aggregation loop of `aggregateTopics`. -/
def mkTopic (topicName : String) (questions : List QuestionWithDetails)
    (topicQuestions : List QuestionWithDetails) : Topic :=
  let topicSlug := hyphenate (lowerStr topicName)
  { slug := topicSlug, name := topicName,
    questionCount := topicQuestions.length,
    difficultyBreakdown := calculateDifficultyBreakdown topicQuestions,
    topCompanies := calculateTopCompanies topicQuestions 10,
    description :=
      (JsMap.get topicDescriptions topicSlug).getD
        ("Practice " ++ topicName ++ " problems to master this essential topic."),
    relatedTopics := calculateRelatedTopics questions topicName 5 }

/-- Model of `aggregateTopics`: one entry per topic of the topic list with
at least one matching record (case-insensitive membership), then a stable
sort by question count descending. -/
def aggregateTopics (questions : List QuestionWithDetails)
    (topicList : List String) : List (String × Topic) :=
  let topics := topicList.foldl (fun m topicName =>
    let topicQuestions := questions.filter (fun q =>
      q.topics.any (fun t => lowerStr t = lowerStr topicName))
    if topicQuestions.length = 0 then m
    else JsMap.set m (hyphenate (lowerStr topicName))
      (mkTopic topicName questions topicQuestions)) []
  List.insertionSort
    (fun a b : String × Topic => b.2.questionCount ≤ a.2.questionCount)
    topics

/-- Model of the first pass of `deduplicateQuestions`: group the
(company, frequency) observations by question slug. -/
def questionCompaniesMap (questions : List QuestionWithDetails) :
    List (String × List CompanyFrequency) :=
  questions.foldl (fun m q =>
    JsMap.upsertAppend m q.slug
      { company := q.company, displayName := formatDisplayName q.company,
        frequency := q.frequency, timeframe := q.timeframe }) []

/-- Model of `deduplicateQuestions`: for each first occurrence of a slug,
emit one entity carrying the frequency-sorted company list, the related
slugs, and the generated description; finally a stable sort by number of
asking companies descending. -/
def deduplicateQuestions (questions : List QuestionWithDetails) :
    List (String × UniqueQuestion) :=
  let questionCompanies := questionCompaniesMap questions
  let uniqueQuestions := questions.foldl (fun m q =>
    if (JsMap.get m q.slug).isSome then m
    else
      let companies := List.insertionSort
        (fun a b : CompanyFrequency => b.frequency ≤ a.frequency)
        (JsMap.getD questionCompanies q.slug [])
      let relatedSlugs := findRelatedQuestions questions q 5
      let seoDescription := generateQuestionDescription q companies
      JsMap.set m q.slug
        { id := q.id, slug := q.slug, title := q.title,
          difficulty := q.difficulty, topics := q.topics,
          acceptanceRate := q.acceptance_rate, companies,
          isPremium := q.isPremiumRaw = "Y", leetcodeUrl := q.link,
          seoDescription, relatedQuestions := relatedSlugs }) []
  List.insertionSort
    (fun a b : String × UniqueQuestion =>
      b.2.companies.length ≤ a.2.companies.length)
    uniqueQuestions

/-! ## Cross-reference index -/

/-- The bucket key of one (record, topic) pair, as concatenated by the
source: company, a colon, then the lowercased topic. -/
def crossKey (q : QuestionWithDetails) (topic : String) : String :=
  q.company ++ ":" ++ lowerStr topic

/-- Model of the bucket-building loop of `buildCrossReferenceIndex`:
for every record and every topic of the record, append the record to the
bucket of its `company:topicLower` key. -/
def crossRefMap (questions : List QuestionWithDetails) :
    List (String × List QuestionWithDetails) :=
  questions.foldl (fun m q =>
    q.topics.foldl (fun m topic => JsMap.upsertAppend m (crossKey q topic) q) m) []

/-- Model of `const [companySlug, topicLower] = key.split(":")`: the first
two segments of the split (every built key contains a colon, so the
fallback branches are unreachable on built keys). -/
def keyParts (key : String) : String × String :=
  match splitOnChar ':' key.data with
  | c :: t :: _ => (String.mk c, String.mk t)
  | [c] => (String.mk c, "")
  | [] => ("", "")

/-- Model of the cross-reference built from one bucket: slugs from the
split key, display names, the count and the difficulty breakdown of the
bucket (the buckets are built non-empty; the empty branch of the name
lookup is unreachable). -/
def mkCrossRef (key : String) (qs : List QuestionWithDetails) :
    CompanyTopicCrossRef :=
  let companySlug := (keyParts key).1
  let topicLower := (keyParts key).2
  let topicSlug := hyphenate topicLower
  { companySlug, companyName := formatDisplayName companySlug,
    topicSlug,
    topicName :=
      match qs with
      | q :: _ => (q.topics.find? (fun t => lowerStr t = topicLower)).getD topicLower
      | [] => topicLower,
    questionCount := qs.length,
    difficultyBreakdown := calculateDifficultyBreakdown qs }

/-- Model of `buildCrossReferenceIndex`.  The source fills the two
per-entity views in one loop over the bucket map; the two folds below
build the same two maps.  Each view is finally sorted by question count
descending (stable). -/
def buildCrossReferenceIndex (questions : List QuestionWithDetails) :
    CrossReferenceIndex :=
  let questionCompanies := questions.foldl (fun m q =>
    let companies := JsMap.getD m q.slug []
    if companies.contains q.company then JsMap.set m q.slug companies
    else JsMap.set m q.slug (companies ++ [q.company])) []
  let questionTopics := questions.foldl (fun m q =>
    if (JsMap.get m q.slug).isSome then m else JsMap.set m q.slug q.topics) []
  let refs := (crossRefMap questions).map (fun kb => mkCrossRef kb.1 kb.2)
  let companyTopics := refs.foldl (fun m ref =>
    JsMap.upsertAppend m ref.companySlug ref) []
  let topicCompanies := refs.foldl (fun m ref =>
    JsMap.upsertAppend m ref.topicSlug ref) []
  { companyTopics := companyTopics.map (fun p =>
      (p.1, List.insertionSort
        (fun a b : CompanyTopicCrossRef => b.questionCount ≤ a.questionCount) p.2)),
    topicCompanies := topicCompanies.map (fun p =>
      (p.1, List.insertionSort
        (fun a b : CompanyTopicCrossRef => b.questionCount ≤ a.questionCount) p.2)),
    questionCompanies, questionTopics }

/-! ## Per-entity question listings -/

/-- The lightweight per-company question record pushed by both listing
builders. -/
def mkQuestionWithContext (q : QuestionWithDetails) : QuestionWithCompanyContext :=
  { id := q.id, slug := q.slug, title := q.title, difficulty := q.difficulty,
    topics := q.topics, acceptanceRate := q.acceptance_rate,
    frequency := q.frequency, timeframe := q.timeframe,
    isPremium := q.isPremiumRaw = "Y", leetcodeUrl := q.link }

/-- Model of `buildCompanyQuestionsIndex`: group by company, then sort each
list by frequency descending (stable). -/
def buildCompanyQuestionsIndex (questions : List QuestionWithDetails) :
    List (String × List QuestionWithCompanyContext) :=
  let index := questions.foldl (fun m q =>
    JsMap.upsertAppend m q.company (mkQuestionWithContext q)) []
  index.map (fun p =>
    (p.1, List.insertionSort
      (fun a b : QuestionWithCompanyContext => b.frequency ≤ a.frequency) p.2))

/-- First-kept deduplication by slug, modelling the seen-set loop of
`buildTopicQuestionsIndex`. -/
def dedupBySlug : List String → List QuestionWithCompanyContext →
    List QuestionWithCompanyContext
  | _, [] => []
  | seen, q :: qs =>
    if q.slug ∈ seen then dedupBySlug seen qs
    else q :: dedupBySlug (q.slug :: seen) qs

/-- Model of `buildTopicQuestionsIndex`: group by topic slug (a record
contributes once per topic of its list), then sort each list by frequency
descending and keep the first occurrence of each question slug. -/
def buildTopicQuestionsIndex (questions : List QuestionWithDetails) :
    List (String × List QuestionWithCompanyContext) :=
  let index := questions.foldl (fun m q =>
    q.topics.foldl (fun m topic =>
      JsMap.upsertAppend m (hyphenate (lowerStr topic)) (mkQuestionWithContext q)) m) []
  index.map (fun p =>
    (p.1, dedupBySlug []
      (List.insertionSort
        (fun a b : QuestionWithCompanyContext => b.frequency ≤ a.frequency) p.2)))

/-! ## Build assembly and read accessors -/

/-- Model of `buildAggregatedData`.  The raw data loading is the external
collaborator boundary, so the three fetched sequences are parameters; the
timing and logging statements have no data effect. -/
def buildAggregatedData (rawQuestions : List QuestionWithDetails)
    (companyList : List String) (topicList : List String) : BuildCache :=
  let companies := aggregateCompanies rawQuestions companyList
  let topics := aggregateTopics rawQuestions topicList
  let questions := deduplicateQuestions rawQuestions
  { companies, topics, questions,
    crossRefs := buildCrossReferenceIndex rawQuestions,
    companyQuestions := buildCompanyQuestionsIndex rawQuestions,
    topicQuestions := buildTopicQuestionsIndex rawQuestions,
    stats :=
      { totalCompanies := companies.length, totalTopics := topics.length,
        totalUniqueQuestions := questions.length,
        totalQuestionRecords := rawQuestions.length, lastBuilt := () } }

/-- Model of `getCompanyBySlug` over a resolved snapshot (the stored
values are objects, so `|| null` is exactly the `Option`). -/
def getCompanyBySlug (cache : BuildCache) (slug : String) : Option Company :=
  JsMap.get cache.companies slug

/-- Model of `getTopicBySlug` over a resolved snapshot. -/
def getTopicBySlug (cache : BuildCache) (slug : String) : Option Topic :=
  JsMap.get cache.topics slug

/-- Model of `getQuestionBySlug` over a resolved snapshot. -/
def getQuestionBySlug (cache : BuildCache) (slug : String) : Option UniqueQuestion :=
  JsMap.get cache.questions slug

/-- Model of `getQuestionsByCompany` over a resolved snapshot. -/
def getQuestionsByCompany (cache : BuildCache) (companySlug : String) :
    List QuestionWithCompanyContext :=
  JsMap.getD cache.companyQuestions companySlug []

/-- Model of `getQuestionsByTopic` over a resolved snapshot. -/
def getQuestionsByTopic (cache : BuildCache) (topicSlug : String) :
    List QuestionWithCompanyContext :=
  JsMap.getD cache.topicQuestions topicSlug []

/-- Model of `getCompanyTopicCrossRefs` over a resolved snapshot. -/
def getCompanyTopicCrossRefs (cache : BuildCache) (companySlug : String) :
    List CompanyTopicCrossRef :=
  JsMap.getD cache.crossRefs.companyTopics companySlug []

/-- Model of `getTopicCompanyCrossRefs` over a resolved snapshot. -/
def getTopicCompanyCrossRefs (cache : BuildCache) (topicSlug : String) :
    List CompanyTopicCrossRef :=
  JsMap.getD cache.crossRefs.topicCompanies topicSlug []

/-- Model of `getQuestionCompanies` over a resolved snapshot. -/
def getQuestionCompanies (cache : BuildCache) (questionSlug : String) :
    List String :=
  JsMap.getD cache.crossRefs.questionCompanies questionSlug []

/-! ## Internal-linking module -/

/-- The link rendered for one related company. -/
def mkCompanyLink (company : Company) : InternalLink :=
  { href := getCanonicalUrl "company" [("slug", company.slug)],
    text := company.displayName,
    title := company.displayName ++ " Interview Questions (" ++
      toString company.questionCount ++ " problems)",
    priority := if getCompanyTier company.slug = 1 then 1 else (0.8 : ℚ) }

/-- Score of one candidate company inside `getRelatedCompanies`, factored
out of the loop body: ten per top-topic slug shared with the current
set, five for an equal tier, three for a numerically lower tier, three
for a question-count difference under fifty, one more under a hundred. -/
def relatedCompanyScore (currentTopics : List String) (currentTier : Nat)
    (currentCount : Nat) (company : Company) : Nat :=
  let topicOverlap :=
    (company.topTopics.filter (fun t => currentTopics.contains t.slug)).length
  let companyTier := getCompanyTier company.slug
  let sizeDiff := ((company.questionCount : ℤ) - (currentCount : ℤ)).natAbs
  topicOverlap * 10 +
    (if companyTier = currentTier then 5 else 0) +
    (if companyTier < currentTier then 3 else 0) +
    (if sizeDiff < 50 then 3 else 0) +
    (if sizeDiff < 100 then 1 else 0)

/-- Model of `getRelatedCompanies`: score every other company, keep the
positive scores, sort by score descending (stable), truncate, render. -/
def getRelatedCompanies (currentCompany : Company)
    (allCompanies : List (String × Company)) (limit : Nat) : List InternalLink :=
  let currentTopics := jsDedup (currentCompany.topTopics.map (·.slug))
  let currentTier := getCompanyTier currentCompany.slug
  let scored := (JsMap.values allCompanies).filterMap (fun company =>
    if company.slug = currentCompany.slug then none
    else
      let score := relatedCompanyScore currentTopics currentTier
        currentCompany.questionCount company
      if score > 0 then some (company, score) else none)
  ((List.insertionSort (fun a b : Company × Nat => b.2 ≤ a.2) scored).take limit).map
    (fun p => mkCompanyLink p.1)

/-- The link rendered for one related topic. -/
def mkTopicLink (topic : Topic) (priority : ℚ) : InternalLink :=
  { href := getCanonicalUrl "topic" [("slug", topic.slug)],
    text := topic.name,
    title := topic.name ++ " Problems (" ++ toString topic.questionCount ++
      " questions)",
    priority }

/-- Model of `getRelatedTopics`: the explicitly related slugs first (top
priority), then, if short of the limit, the most popular remaining topics
(lower priority); finally truncated to the limit. -/
def getRelatedTopics (currentTopic : Topic)
    (allTopics : List (String × Topic)) (limit : Nat) : List InternalLink :=
  let relatedSlugs := jsDedup currentTopic.relatedTopics
  let links := relatedSlugs.filterMap (fun slug =>
    (JsMap.get allTopics slug).map (fun topic => mkTopicLink topic 1))
  let links2 :=
    if links.length < limit then
      let popular := (List.insertionSort
        (fun a b : Topic => b.questionCount ≤ a.questionCount)
        ((JsMap.values allTopics).filter (fun t =>
          t.slug ≠ currentTopic.slug ∧ ¬ relatedSlugs.contains t.slug))).take
        (limit - links.length)
      links ++ popular.map (fun topic => mkTopicLink topic (0.7 : ℚ))
    else links
  links2.take limit

/-- The link rendered for one related problem. -/
def mkProblemLink (question : UniqueQuestion) (priority : ℚ) : InternalLink :=
  { href := getCanonicalUrl "problem" [("slug", question.slug)],
    text := question.title,
    title := question.title ++ " - " ++ question.difficulty,
    priority }

/-- Score of one backfill candidate inside `getRelatedProblems`: five per
case-insensitive shared topic, two for an equal difficulty, plus the
company count capped at five. -/
def relatedProblemScore (currentTopics : List String)
    (currentQuestion : UniqueQuestion) (question : UniqueQuestion) : Nat :=
  let topicOverlap :=
    (question.topics.filter (fun t => currentTopics.contains (lowerStr t))).length
  topicOverlap * 5 +
    (if question.difficulty = currentQuestion.difficulty then 2 else 0) +
    min question.companies.length 5

/-- Model of `getRelatedProblems`: the explicitly related slugs first (top
priority), then, if short of the limit, the positively scored remaining
questions sorted by score descending; finally truncated to the limit. -/
def getRelatedProblems (currentQuestion : UniqueQuestion)
    (allQuestions : List (String × UniqueQuestion)) (limit : Nat) :
    List InternalLink :=
  let currentTopics := jsDedup (currentQuestion.topics.map lowerStr)
  let relatedSlugs := jsDedup currentQuestion.relatedQuestions
  let links := relatedSlugs.filterMap (fun slug =>
    (JsMap.get allQuestions slug).map (fun question => mkProblemLink question 1))
  let links2 :=
    if links.length < limit then
      let scored := (JsMap.values allQuestions).filterMap (fun question =>
        if question.slug = currentQuestion.slug then none
        else if relatedSlugs.contains question.slug then none
        else
          let score := relatedProblemScore currentTopics currentQuestion question
          if score > 0 then some (question, score) else none)
      let additional := (List.insertionSort
        (fun a b : UniqueQuestion × Nat => b.2 ≤ a.2) scored).take
        (limit - links.length)
      links ++ additional.map (fun p => mkProblemLink p.1 (0.8 : ℚ))
    else links
  links2.take limit

/-! ## Cache controller (`getBuildCache`)

The module keeps two variables, `buildCache` (the memoized snapshot) and
`cachePromise` (the in-flight promise).  Under the single-threaded
JavaScript event loop the synchronous prefix of one `getBuildCache` call
runs atomically, so a call is one step; the settlement of the build
promise (which runs the continuation of the first caller after its
`await`) is another step.  The model is polymorphic in the snapshot type
and the error type and counts the invocations of `buildAggregatedData`. -/

/-- State of the stored promise: still pending, or already rejected.  A
fulfilled promise never remains stored, because the continuation of the
initiating caller clears `cachePromise` after a successful `await`. -/
inductive PromisePhase (E : Type) where
  | pending
  | rejected (e : E)
deriving DecidableEq, Repr

/-- Decidable equality of call outcomes (used to evaluate the model on
concrete inputs). -/
instance exceptDecEq {E C : Type} [DecidableEq E] [DecidableEq C] :
    DecidableEq (Except E C) := fun a b =>
  match a, b with
  | Except.ok x, Except.ok y =>
    if h : x = y then isTrue (congrArg Except.ok h)
    else isFalse (fun hh => h (Except.ok.inj hh))
  | Except.error x, Except.error y =>
    if h : x = y then isTrue (congrArg Except.error h)
    else isFalse (fun hh => h (Except.error.inj hh))
  | Except.ok _, Except.error _ => isFalse (fun hh => Except.noConfusion hh)
  | Except.error _, Except.ok _ => isFalse (fun hh => Except.noConfusion hh)

/-- The module-level cache state plus bookkeeping: the number of build
invocations, the callers awaiting the pending promise, and the settled
call results. -/
structure CacheSys (C E : Type) where
  buildCache : Option C
  cachePromise : Option (PromisePhase E)
  buildCount : Nat
  waiters : List Nat
  results : List (Nat × Except E C)
deriving DecidableEq, Repr

/-- The fresh module state: both variables are null. -/
def initCacheSys (C E : Type) : CacheSys C E :=
  { buildCache := none, cachePromise := none, buildCount := 0,
    waiters := [], results := [] }

/-- One call of `getBuildCache` by caller `id`, following the source line
by line: a memoized snapshot is returned at once; otherwise a stored
promise is returned (joining it while pending, receiving its rejection if
it is already rejected); otherwise `buildAggregatedData()` is invoked and
its pending promise is stored, the caller awaiting it. -/
def getBuildCacheStep {C E : Type} (s : CacheSys C E) (id : Nat) : CacheSys C E :=
  match s.buildCache with
  | some c => { s with results := s.results ++ [(id, Except.ok c)] }
  | none =>
    match s.cachePromise with
    | some PromisePhase.pending => { s with waiters := s.waiters ++ [id] }
    | some (PromisePhase.rejected e) =>
      { s with results := s.results ++ [(id, Except.error e)] }
    | none =>
      { s with buildCount := s.buildCount + 1,
               cachePromise := some PromisePhase.pending,
               waiters := s.waiters ++ [id] }

/-- Settlement of the in-flight build.  On success the continuation of the
initiating caller stores the snapshot and clears `cachePromise`, and every
waiter resolves with the snapshot.  On failure the `await` in the
initiating caller throws, so the two assignments after it never run:
`buildCache` stays null and `cachePromise` keeps the (now rejected)
promise; every waiter rejects with the error. -/
def buildSettle {C E : Type} (s : CacheSys C E) (outcome : Except E C) :
    CacheSys C E :=
  match s.cachePromise with
  | some PromisePhase.pending =>
    match outcome with
    | Except.ok c =>
      { s with buildCache := some c, cachePromise := none,
               results := s.results ++ s.waiters.map (fun i => (i, Except.ok c)),
               waiters := [] }
    | Except.error e =>
      { s with cachePromise := some (PromisePhase.rejected e),
               results := s.results ++ s.waiters.map (fun i => (i, Except.error e)),
               waiters := [] }
  | _ => s

/-- A sequence of `getBuildCache` calls. -/
def getBuildCacheCalls {C E : Type} (s : CacheSys C E) (ids : List Nat) :
    CacheSys C E :=
  ids.foldl getBuildCacheStep s

/-! ## Spec-side definitions

The following definitions are written from the words of the claims, not
from the source, and are compared with the source embedding. -/

/-- Spec-side count for claim C5: the number of raw records of the given
company whose topic list contains the given (lowercased) topic,
case-insensitively. -/
def specRecordsWithTopic (questions : List QuestionWithDetails)
    (company : String) (topicLower : String) : Nat :=
  (questions.filter (fun q =>
    q.company = company ∧ q.topics.any (fun t => lowerStr t = topicLower))).length

/-- Occurrence-based count for the amended claim C5: the total number of
occurrences of the topic (case-insensitively) across the topic lists of
the records of the given company. -/
def occurrencesWithTopic (questions : List QuestionWithDetails)
    (company : String) (topicLower : String) : Nat :=
  (questions.map (fun q =>
    if q.company = company then
      q.topics.countP (fun t => lowerStr t = topicLower)
    else 0)).sum

/-- Spec-side score of claim C6, written from the claim text: ten per
top-topic slug shared with the top topics of the current company, five if
the tiers are equal, three if the candidate tier is numerically lower,
three if the absolute question-count difference is below fifty, and one
more if it is below one hundred. -/
def specRelatedCompanyScore (currentCompany company : Company) : Nat :=
  10 * (company.topTopics.filter (fun t =>
      (currentCompany.topTopics.map (·.slug)).contains t.slug)).length +
    (if getCompanyTier company.slug = getCompanyTier currentCompany.slug then 5 else 0) +
    (if getCompanyTier company.slug < getCompanyTier currentCompany.slug then 3 else 0) +
    (if ((company.questionCount : ℤ) - (currentCompany.questionCount : ℤ)).natAbs < 50
      then 3 else 0) +
    (if ((company.questionCount : ℤ) - (currentCompany.questionCount : ℤ)).natAbs < 100
      then 1 else 0)

/-- Spec-side pipeline of claim C6: every candidate other than the current
company is scored, candidates without a positive score are excluded, the
rest is sorted by score descending (stably) and truncated to the limit. -/
def specRelatedCompanies (currentCompany : Company)
    (allCompanies : List (String × Company)) (limit : Nat) : List InternalLink :=
  let candidates := (JsMap.values allCompanies).filter
    (fun company => company.slug ≠ currentCompany.slug)
  let scored := candidates.filterMap (fun company =>
    if specRelatedCompanyScore currentCompany company > 0 then
      some (company, specRelatedCompanyScore currentCompany company)
    else none)
  ((List.insertionSort (fun a b : Company × Nat => b.2 ≤ a.2) scored).take limit).map
    (fun p => mkCompanyLink p.1)

/-- Lifting of a predicate over an optional value: trivially true for an
absent value.  Used to state per-entry properties of the built maps
through their lookups. -/
def OptHolds {α : Type} (P : α → Prop) : Option α → Prop
  | none => True
  | some a => P a

instance {α : Type} (P : α → Prop) [DecidablePred P] (o : Option α) :
    Decidable (OptHolds P o) :=
  match o with
  | none => isTrue trivial
  | some a => inferInstanceAs (Decidable (P a))

/-- Well-formed difficulty strings of the raw data model. -/
def validDifficulty (d : String) : Prop :=
  d = "Easy" ∨ d = "Medium" ∨ d = "Hard"

instance (d : String) : Decidable (validDifficulty d) := by
  unfold validDifficulty; infer_instance

/-- Recognized records: those whose lowercased difficulty hits one of the
three declared buckets. -/
def recognizedDifficulty (q : QuestionWithDetails) : Bool :=
  lowerStr q.difficulty = "easy" ∨ lowerStr q.difficulty = "medium" ∨
    lowerStr q.difficulty = "hard"

/-- Absence of a slug from every map of a snapshot. -/
def slugAbsent (cache : BuildCache) (slug : String) : Prop :=
  slug ∉ JsMap.keysList cache.companies ∧
  slug ∉ JsMap.keysList cache.topics ∧
  slug ∉ JsMap.keysList cache.questions ∧
  slug ∉ JsMap.keysList cache.companyQuestions ∧
  slug ∉ JsMap.keysList cache.topicQuestions ∧
  slug ∉ JsMap.keysList cache.crossRefs.companyTopics ∧
  slug ∉ JsMap.keysList cache.crossRefs.topicCompanies ∧
  slug ∉ JsMap.keysList cache.crossRefs.questionCompanies

instance (cache : BuildCache) (slug : String) : Decidable (slugAbsent cache slug) := by
  unfold slugAbsent; infer_instance

/-! ## Concrete fixtures

Small inputs used by the witnesses and counterexamples below.  The
two-record example comes from the spec (google and amazon both asking
two-sum). -/

/-- The google two-sum record of the spec example. -/
def qGoogle : QuestionWithDetails :=
  { id := 1, slug := "two-sum", title := "Two Sum", difficulty := "Easy",
    topics := ["Array", "Hash Table"], acceptance_rate := 50,
    company := "google", frequency := 80, timeframe := "all",
    isPremiumRaw := "N", link := "https://leetcode.com/problems/two-sum" }

/-- The amazon two-sum record of the spec example. -/
def qAmazon : QuestionWithDetails :=
  { qGoogle with company := "amazon", frequency := 40 }

/-- The snapshot built from the two-record spec example. -/
def exampleCache : BuildCache :=
  buildAggregatedData [qGoogle, qAmazon] ["google", "amazon"]
    ["Array", "Hash Table"]

/-- A record whose topic list names the same topic twice up to case. -/
def qDupTopic : QuestionWithDetails :=
  { qGoogle with company := "g", slug := "s1", topics := ["A", "a"] }

/-- A record with an out-of-domain difficulty string. -/
def qBadDifficulty : QuestionWithDetails :=
  { qGoogle with company := "g", difficulty := "Tricky" }

/-- A record whose topic list contains two distinct spellings that
normalize to the same slug. -/
def qCollide : QuestionWithDetails :=
  { qGoogle with
    company := "g"
    slug := "s1"
    topics := ["Hash Table", "hash-table"] }

/-- The snapshot built from the colliding-topic record. -/
def collideCache : BuildCache :=
  buildAggregatedData [qCollide] ["g"] ["Hash Table", "hash-table"]

/-- Placeholder topic used to name lookup results in closed statements. -/
def placeholderTopic : Topic :=
  { slug := "", name := "", questionCount := 0,
    difficultyBreakdown := ⟨0, 0, 0⟩, topCompanies := [], description := "",
    relatedTopics := [] }

/-- Placeholder cross-reference used to name lookup results in closed
statements. -/
def placeholderCrossRef : CompanyTopicCrossRef :=
  { companySlug := "", companyName := "", topicSlug := "", topicName := "",
    questionCount := 0, difficultyBreakdown := ⟨0, 0, 0⟩ }

/-- Instances letting the sortedness lemma apply to the frequency order of
the company lists. -/
instance : IsTotal CompanyFrequency (fun a b => b.frequency ≤ a.frequency) :=
  ⟨fun a b => le_total b.frequency a.frequency⟩

instance : IsTrans CompanyFrequency (fun a b => b.frequency ≤ a.frequency) :=
  ⟨fun _ _ _ h1 h2 => le_trans h2 h1⟩

/-- Number of (record, topic) pairs of the input whose bucket key equals
the given key; the size the corresponding cross-reference bucket reaches. -/
def keyOcc (questions : List QuestionWithDetails) (key : String) : Nat :=
  (questions.map (fun q => q.topics.countP (fun t => crossKey q t = key))).sum

/-! ## Basic lemmas about the map and deduplication models -/

namespace JsMap

variable {α : Type}

theorem get_set_self (m : List (String × α)) (k : String) (v : α) :
    get (set m k v) k = some v := by
  induction m with
  | nil => simp [set, get]
  | cons p rest ih =>
    obtain ⟨k0, v0⟩ := p
    by_cases h : k0 = k
    · simp [set, h, get]
    · simp [set, h, get, ih]

theorem get_set_ne (m : List (String × α)) {k k2 : String} (v : α)
    (h : k2 ≠ k) : get (set m k v) k2 = get m k2 := by
  induction m with
  | nil =>
    simp only [set, get]
    rw [if_neg (fun hh : k = k2 => h hh.symm)]
  | cons p rest ih =>
    obtain ⟨k0, v0⟩ := p
    by_cases hk : k0 = k
    · subst hk
      have hne : ¬ k0 = k2 := fun hh => h hh.symm
      simp only [set, if_pos rfl, get, if_neg hne]
    · simp only [set, if_neg hk, get, ih]

theorem mem_set {m : List (String × α)} {k : String} {v : α}
    {p : String × α} (hp : p ∈ set m k v) : p = (k, v) ∨ p ∈ m := by
  induction m with
  | nil =>
    simp only [set, List.mem_singleton] at hp
    exact Or.inl hp
  | cons q rest ih =>
    obtain ⟨k0, v0⟩ := q
    by_cases h : k0 = k
    · simp only [set, if_pos h] at hp
      rcases List.mem_cons.mp hp with hp1 | hp1
      · exact Or.inl hp1
      · exact Or.inr (List.mem_cons_of_mem _ hp1)
    · simp only [set, if_neg h] at hp
      rcases List.mem_cons.mp hp with hp1 | hp1
      · refine Or.inr ?_
        rw [hp1]
        exact List.mem_cons_self _ _
      · rcases ih hp1 with hh | hh
        · exact Or.inl hh
        · exact Or.inr (List.mem_cons_of_mem _ hh)

theorem mem_of_get_eq_some {m : List (String × α)} {k : String} {v : α}
    (h : get m k = some v) : (k, v) ∈ m := by
  induction m with
  | nil => simp [get] at h
  | cons p rest ih =>
    obtain ⟨k0, v0⟩ := p
    by_cases hk : k0 = k
    · subst hk
      simp [get] at h
      rw [h]
      exact List.mem_cons_self _ _
    · simp only [get, if_neg hk] at h
      exact List.mem_cons_of_mem _ (ih h)

theorem get_eq_none_of_not_mem_keys {m : List (String × α)} {k : String}
    (h : k ∉ keysList m) : get m k = none := by
  induction m with
  | nil => simp [get]
  | cons p rest ih =>
    obtain ⟨k0, v0⟩ := p
    have hcons : keysList ((k0, v0) :: rest) = k0 :: keysList rest := rfl
    rw [hcons] at h
    simp only [List.mem_cons] at h
    push_neg at h
    simp only [get, if_neg (fun hh : k0 = k => h.1 hh.symm)]
    exact ih h.2

theorem not_mem_keys_of_get_eq_none {m : List (String × α)} {k : String}
    (h : get m k = none) : k ∉ keysList m := by
  induction m with
  | nil => simp [keysList]
  | cons p rest ih =>
    obtain ⟨k0, v0⟩ := p
    by_cases hk : k0 = k
    · simp [get, hk] at h
    · simp only [get, if_neg hk] at h
      have hcons : keysList ((k0, v0) :: rest) = k0 :: keysList rest := rfl
      rw [hcons]
      simp only [List.mem_cons]
      push_neg
      exact ⟨fun hh => hk hh.symm, ih h⟩

theorem keysList_set (m : List (String × α)) (k : String) (v : α) :
    keysList (set m k v) =
      if k ∈ keysList m then keysList m else keysList m ++ [k] := by
  induction m with
  | nil => simp [set, keysList]
  | cons p rest ih =>
    obtain ⟨k0, v0⟩ := p
    have hcons : ∀ (v1 : α) (l : List (String × α)),
        keysList ((k0, v1) :: l) = k0 :: keysList l := fun _ _ => rfl
    by_cases h : k0 = k
    · subst h
      have hset : set ((k0, v0) :: rest) k0 v = (k0, v) :: rest := by
        simp [set]
      rw [hset, hcons, hcons, if_pos (List.mem_cons_self _ _)]
    · have hset : set ((k0, v0) :: rest) k v = (k0, v0) :: set rest k v := by
        simp [set, h]
      have hiff : k ∈ keysList ((k0, v0) :: rest) ↔ k ∈ keysList rest := by
        rw [hcons]
        constructor
        · intro hh
          rcases List.mem_cons.mp hh with he | he
          · exact absurd he.symm h
          · exact he
        · exact fun hh => List.mem_cons_of_mem _ hh
      by_cases hmem : k ∈ keysList rest
      · rw [hset, hcons, ih, if_pos hmem, if_pos (hiff.mpr hmem), hcons]
      · rw [hset, hcons, ih, if_neg hmem,
          if_neg (fun hh => hmem (hiff.mp hh)), hcons]
        simp

theorem nodupKeys_set {m : List (String × α)} (k : String) (v : α)
    (h : (keysList m).Nodup) : (keysList (set m k v)).Nodup := by
  rw [keysList_set]
  by_cases hmem : k ∈ keysList m
  · simpa [hmem] using h
  · simp only [hmem, if_false]
    simpa [List.nodup_append, hmem] using h

theorem get_eq_some_of_mem {m : List (String × α)} {k : String} {v : α}
    (hn : (keysList m).Nodup) (hm : (k, v) ∈ m) : get m k = some v := by
  induction m with
  | nil => simp at hm
  | cons p rest ih =>
    obtain ⟨k0, v0⟩ := p
    have hcons : keysList ((k0, v0) :: rest) = k0 :: keysList rest := rfl
    rw [hcons, List.nodup_cons] at hn
    rcases List.mem_cons.mp hm with hh | hh
    · cases hh
      simp [get]
    · have hk : k0 ≠ k := by
        intro he
        exact hn.1 (he ▸ (List.mem_map.mpr ⟨(k, v), hh, rfl⟩))
      simp only [get, if_neg hk]
      exact ih hn.2 hh

theorem get_congr_perm {m m2 : List (String × α)} (k : String)
    (hp : m.Perm m2) (hn : (keysList m).Nodup) : get m k = get m2 k := by
  have hperm : (keysList m).Perm (keysList m2) :=
    List.Perm.map (fun p : String × α => p.1) hp
  have hn2 : (keysList m2).Nodup := (hperm.nodup_iff).mp hn
  cases hval : get m k with
  | none =>
    have hkeys : k ∉ keysList m := not_mem_keys_of_get_eq_none hval
    have hkeys2 : k ∉ keysList m2 := fun hmem => hkeys (hperm.symm.subset hmem)
    rw [get_eq_none_of_not_mem_keys hkeys2]
  | some v =>
    exact (get_eq_some_of_mem hn2 (hp.subset (mem_of_get_eq_some hval))).symm

theorem getD_upsertAppend_self (m : List (String × List α)) (k : String) (x : α) :
    getD (upsertAppend m k x) k [] = getD m k [] ++ [x] := by
  simp [upsertAppend, getD, get_set_self]

theorem getD_upsertAppend_ne (m : List (String × List α)) {k k2 : String}
    (x : α) (h : k2 ≠ k) :
    getD (upsertAppend m k x) k2 [] = getD m k2 [] := by
  simp [upsertAppend, getD, get_set_ne _ _ h]

theorem mem_upsertAppend {m : List (String × List α)} {k : String} {x : α}
    {p : String × List α} (hp : p ∈ upsertAppend m k x) :
    p = (k, getD m k [] ++ [x]) ∨ p ∈ m :=
  mem_set hp

theorem nodupKeys_upsertAppend {m : List (String × List α)} (k : String)
    (x : α) (h : (keysList m).Nodup) :
    (keysList (upsertAppend m k x)).Nodup :=
  nodupKeys_set _ _ h

end JsMap

theorem jsDedupAux_props (l seen : List String) :
    (jsDedupAux seen l).Nodup ∧
      ∀ x ∈ jsDedupAux seen l, x ∉ seen ∧ x ∈ l := by
  induction l generalizing seen with
  | nil => simp [jsDedupAux]
  | cons y ys ih =>
    by_cases hy : y ∈ seen
    · simp only [jsDedupAux, if_pos hy]
      refine ⟨(ih seen).1, fun x hx => ?_⟩
      exact ⟨((ih seen).2 x hx).1,
        List.mem_cons_of_mem _ ((ih seen).2 x hx).2⟩
    · simp only [jsDedupAux, if_neg hy]
      constructor
      · refine List.nodup_cons.mpr ⟨fun hmem => ?_, (ih (y :: seen)).1⟩
        exact ((ih (y :: seen)).2 y hmem).1 (List.mem_cons_self _ _)
      · intro x hx
        rcases List.mem_cons.mp hx with hx | hx
        · exact ⟨hx ▸ hy, hx ▸ List.mem_cons_self _ _⟩
        · have := (ih (y :: seen)).2 x hx
          exact ⟨fun hmem => this.1 (List.mem_cons_of_mem _ hmem),
            List.mem_cons_of_mem _ this.2⟩

theorem jsDedup_nodup (l : List String) : (jsDedup l).Nodup :=
  (jsDedupAux_props l []).1

theorem mem_of_mem_jsDedup {l : List String} {x : String}
    (h : x ∈ jsDedup l) : x ∈ l :=
  ((jsDedupAux_props l []).2 x h).2

theorem mem_jsDedup_of_mem {l : List String} {x : String} (h : x ∈ l) :
    x ∈ jsDedup l := by
  have haux : ∀ seen rest, x ∈ rest → x ∉ seen → x ∈ jsDedupAux seen rest := by
    intro seen rest
    induction rest generalizing seen with
    | nil => intro h; simp at h
    | cons y ys ih =>
      intro hmem hseen
      by_cases hy : y ∈ seen
      · simp only [jsDedupAux, if_pos hy]
        rcases List.mem_cons.mp hmem with he | he
        · exact absurd (he ▸ hy) hseen
        · exact ih seen he hseen
      · simp only [jsDedupAux, if_neg hy]
        rcases List.mem_cons.mp hmem with he | he
        · exact he ▸ List.mem_cons_self _ _
        · by_cases hxy : x = y
          · exact hxy ▸ List.mem_cons_self _ _
          · exact List.mem_cons_of_mem _
              (ih (y :: seen) he (by simp [hxy, hseen]))
  exact haux [] l h (by simp)

theorem mem_jsDedup {l : List String} {x : String} :
    x ∈ jsDedup l ↔ x ∈ l :=
  ⟨mem_of_mem_jsDedup, mem_jsDedup_of_mem⟩

theorem jsDedup_length_le (l : List String) :
    (jsDedup l).length ≤ l.length := by
  have haux : ∀ rest seen, (jsDedupAux seen rest).length ≤ rest.length := by
    intro rest
    induction rest with
    | nil => intro seen; simp [jsDedupAux]
    | cons y ys ih =>
      intro seen
      by_cases hy : y ∈ seen
      · simp only [jsDedupAux, if_pos hy, List.length_cons]
        exact Nat.le_succ_of_le (ih seen)
      · simp only [jsDedupAux, if_neg hy, List.length_cons]
        exact Nat.succ_le_succ (ih (y :: seen))
  exact haux l []

/-! ## Claims C1 and C2: the cache controller -/

theorem getBuildCacheCalls_pending {C E : Type} (ids : List Nat)
    (n : Nat) (w : List Nat) (r : List (Nat × Except E C)) :
    getBuildCacheCalls
      (⟨none, some PromisePhase.pending, n, w, r⟩ : CacheSys C E) ids =
      ⟨none, some PromisePhase.pending, n, w ++ ids, r⟩ := by
  induction ids generalizing w with
  | nil => simp [getBuildCacheCalls]
  | cons id ids ih =>
    show getBuildCacheCalls (getBuildCacheStep _ id) ids = _
    have hstep : getBuildCacheStep
        (⟨none, some PromisePhase.pending, n, w, r⟩ : CacheSys C E) id =
        ⟨none, some PromisePhase.pending, n, w ++ [id], r⟩ := rfl
    rw [hstep, ih]
    simp

/-- Claim C2: for every N of at least one, when N callers invoke
`getBuildCache` concurrently before any build has completed (N calls from
the fresh state, then the single settlement of the in-flight build with
the snapshot), exactly one invocation of `buildAggregatedData` happens
(the build count of the final state is one) and all N calls resolve to the
same snapshot. -/
theorem c2_single_build_shared_snapshot {C E : Type} (c : C) (N : Nat)
    (h : 1 ≤ N) :
    (buildSettle (getBuildCacheCalls (initCacheSys C E) (List.range N))
        (Except.ok c)).buildCount = 1 ∧
    (buildSettle (getBuildCacheCalls (initCacheSys C E) (List.range N))
        (Except.ok c)).results =
      (List.range N).map (fun i => (i, Except.ok c)) := by
  obtain ⟨n, rfl⟩ : ∃ n, N = n + 1 := ⟨N - 1, (Nat.succ_pred_eq_of_pos h).symm⟩
  rw [List.range_succ_eq_map]
  have hstep : getBuildCacheStep (initCacheSys C E) 0 =
      ⟨none, some PromisePhase.pending, 1, [0], []⟩ := rfl
  have hcalls : getBuildCacheCalls (initCacheSys C E)
      (0 :: List.map Nat.succ (List.range n)) =
      ⟨none, some PromisePhase.pending, 1,
        [0] ++ List.map Nat.succ (List.range n), []⟩ := by
    show getBuildCacheCalls (getBuildCacheStep (initCacheSys C E) 0)
      (List.map Nat.succ (List.range n)) = _
    rw [hstep, getBuildCacheCalls_pending]
  rw [hcalls]
  have hsettle : buildSettle
      (⟨none, some PromisePhase.pending, 1,
        [0] ++ List.map Nat.succ (List.range n), []⟩ : CacheSys C E)
      (Except.ok c) =
      ⟨some c, none, 1, [],
        [] ++ ([0] ++ List.map Nat.succ (List.range n)).map
          (fun i => (i, Except.ok c))⟩ := rfl
  rw [hsettle]
  exact ⟨rfl, by simp⟩

/-- Witness for claim C2 at three concurrent callers and a concrete
snapshot value. -/
theorem c2_single_build_shared_snapshot_witness :
    1 ≤ 3 ∧
    ((buildSettle (getBuildCacheCalls (initCacheSys Nat String) (List.range 3))
        (Except.ok 42)).buildCount = 1 ∧
      (buildSettle (getBuildCacheCalls (initCacheSys Nat String) (List.range 3))
        (Except.ok 42)).results =
        (List.range 3).map (fun i => (i, Except.ok 42))) :=
  ⟨by decide, c2_single_build_shared_snapshot 42 3 (by decide)⟩

/-- Claim C1 (code bug demonstration): after one caller triggers a build
that fails, the rejection does propagate and the memoized snapshot stays
empty, but the pending-build handle is NOT cleared: `cachePromise` keeps
the rejected promise (the clearing assignment sits after the failing
`await` and never runs), so a second call returns the same old rejection
and no fresh build starts (the build count stays one). -/
theorem c1_failure_leaves_rejected_promise :
    (buildSettle (getBuildCacheStep (initCacheSys Nat String) 0)
        (Except.error "boom")).buildCache = none ∧
    (buildSettle (getBuildCacheStep (initCacheSys Nat String) 0)
        (Except.error "boom")).cachePromise =
      some (PromisePhase.rejected "boom") ∧
    (getBuildCacheStep
        (buildSettle (getBuildCacheStep (initCacheSys Nat String) 0)
          (Except.error "boom")) 1).results =
      [(0, Except.error "boom"), (1, Except.error "boom")] ∧
    (getBuildCacheStep
        (buildSettle (getBuildCacheStep (initCacheSys Nat String) 0)
          (Except.error "boom")) 1).buildCount = 1 := by
  decide

/-! ## Generic fold lemmas -/

theorem foldl_preserve {β γ : Type} {step : γ → β → γ} {P : γ → Prop}
    (hstep : ∀ acc b, P acc → P (step acc b)) :
    ∀ (l : List β) (acc : γ), P acc → P (l.foldl step acc) := by
  intro l
  induction l with
  | nil => intro acc h; exact h
  | cons b bs ih => intro acc h; exact ih _ (hstep acc b h)

theorem foldl_preserve_mem {β γ : Type} {step : γ → β → γ} {P : γ → Prop}
    (l : List β) (hstep : ∀ acc b, b ∈ l → P acc → P (step acc b)) :
    ∀ (acc : γ), P acc → P (l.foldl step acc) := by
  induction l with
  | nil => intro acc h; exact h
  | cons b bs ih =>
    intro acc h
    exact ih (fun acc2 b2 hb2 hp => hstep acc2 b2 (List.mem_cons_of_mem _ hb2) hp)
      _ (hstep acc b (List.mem_cons_self _ _) h)

theorem foldl_transfer {β γ δ : Type} (f : γ → δ) (step : γ → β → γ)
    (step2 : δ → β → δ) (hcomm : ∀ acc b, f (step acc b) = step2 (f acc) b) :
    ∀ (l : List β) (acc : γ), f (l.foldl step acc) = l.foldl step2 (f acc) := by
  intro l
  induction l with
  | nil => intro acc; rfl
  | cons b bs ih => intro acc; rw [List.foldl_cons, ih, hcomm, List.foldl_cons]

theorem foldl_add_map {β : Type} (h : β → Nat) :
    ∀ (l : List β) (n : Nat),
      l.foldl (fun acc b => acc + h b) n = n + (l.map h).sum := by
  intro l
  induction l with
  | nil => intro n; simp
  | cons b bs ih => intro n; simp [ih]; omega

theorem sum_map_ite_eq_countP {β : Type} (p : β → Bool) (l : List β) :
    (l.map (fun b => if p b then 1 else 0)).sum = l.countP p := by
  induction l with
  | nil => simp
  | cons b bs ih =>
    simp only [List.map_cons, List.sum_cons, List.countP_cons, ih]
    cases hpb : p b
    · simp
    · simp
      omega

/-! ## Lemmas about the difficulty breakdown -/

theorem calculateDifficultyBreakdown_sum (l : List QuestionWithDetails) :
    (calculateDifficultyBreakdown l).easy +
      (calculateDifficultyBreakdown l).medium +
      (calculateDifficultyBreakdown l).hard = l.countP recognizedDifficulty := by
  have h := foldl_transfer
    (fun bd : DifficultyBreakdown => bd.easy + bd.medium + bd.hard)
    (fun breakdown q =>
      let difficulty := lowerStr q.difficulty
      if difficulty = "easy" then { breakdown with easy := breakdown.easy + 1 }
      else if difficulty = "medium" then { breakdown with medium := breakdown.medium + 1 }
      else if difficulty = "hard" then { breakdown with hard := breakdown.hard + 1 }
      else breakdown)
    (fun acc q => acc + (if recognizedDifficulty q then 1 else 0))
    (fun acc q => by
      by_cases h1 : lowerStr q.difficulty = "easy"
      · simp [recognizedDifficulty, h1]; omega
      · by_cases h2 : lowerStr q.difficulty = "medium"
        · simp [recognizedDifficulty, h1, h2]; omega
        · by_cases h3 : lowerStr q.difficulty = "hard"
          · simp [recognizedDifficulty, h1, h2, h3]; omega
          · simp [recognizedDifficulty, h1, h2, h3])
    l ⟨0, 0, 0⟩
  calc (calculateDifficultyBreakdown l).easy +
        (calculateDifficultyBreakdown l).medium +
        (calculateDifficultyBreakdown l).hard
      = l.foldl (fun acc q => acc + (if recognizedDifficulty q then 1 else 0)) 0 := h
    _ = (l.map (fun q => if recognizedDifficulty q then 1 else 0)).sum := by
        rw [foldl_add_map]; omega
    _ = l.countP recognizedDifficulty := sum_map_ite_eq_countP _ l

/-! ## Characterization of the aggregated company map -/

theorem aggregateCompanies_entry_eq {qs : List QuestionWithDetails}
    {cl : List String} {p : String × Company}
    (hp : p ∈ aggregateCompanies qs cl) :
    p.2 = mkCompany p.1 (qs.filter (fun q => q.company = p.1)) := by
  unfold aggregateCompanies at hp
  have hp2 := (List.perm_insertionSort _ _).subset hp
  refine foldl_preserve (P := fun m => ∀ r ∈ m,
      r.2 = mkCompany r.1 (qs.filter (fun q => q.company = r.1)))
    ?_ cl [] (by simp) p hp2
  intro acc b hacc
  dsimp only
  by_cases hlen : (qs.filter (fun q => q.company = b)).length = 0
  · rw [if_pos hlen]; exact hacc
  · rw [if_neg hlen]
    intro r hr
    rcases JsMap.mem_set hr with he | he
    · rw [he]
    · exact hacc r he

theorem aggregateCompanies_nodupKeys (qs : List QuestionWithDetails)
    (cl : List String) :
    (JsMap.keysList (aggregateCompanies qs cl)).Nodup := by
  have hperm : (aggregateCompanies qs cl).Perm
      (cl.foldl (fun m companySlug =>
        let companyQuestions := qs.filter (fun q => q.company = companySlug)
        if companyQuestions.length = 0 then m
        else JsMap.set m companySlug (mkCompany companySlug companyQuestions)) []) :=
    List.perm_insertionSort _ _
  have hfold : (JsMap.keysList (cl.foldl (fun m companySlug =>
      let companyQuestions := qs.filter (fun q => q.company = companySlug)
      if companyQuestions.length = 0 then m
      else JsMap.set m companySlug (mkCompany companySlug companyQuestions))
        [])).Nodup := by
    refine foldl_preserve
      (P := fun m : List (String × Company) => (JsMap.keysList m).Nodup)
      ?_ cl [] ?_
    · intro acc b h
      dsimp only
      by_cases hlen : (qs.filter (fun q => q.company = b)).length = 0
      · rw [if_pos hlen]; exact h
      · rw [if_neg hlen]; exact JsMap.nodupKeys_set _ _ h
    · simp [JsMap.keysList]
  exact ((List.Perm.map (fun p : String × Company => p.1) hperm).nodup_iff).mpr hfold

theorem aggregateCompanies_get (qs : List QuestionWithDetails)
    (cl : List String) (slug : String) :
    OptHolds (fun c => c = mkCompany slug (qs.filter (fun q => q.company = slug)))
      (JsMap.get (aggregateCompanies qs cl) slug) := by
  cases hval : JsMap.get (aggregateCompanies qs cl) slug with
  | none => trivial
  | some c =>
    show c = _
    exact aggregateCompanies_entry_eq (JsMap.mem_of_get_eq_some hval)

theorem recognized_of_valid {q : QuestionWithDetails}
    (h : validDifficulty q.difficulty) : recognizedDifficulty q = true := by
  rcases h with h | h | h
  all_goals (unfold recognizedDifficulty; rw [h]; decide)

/-! ## Claim C3: no build-time validation of malformed records -/

/-- Claim C3 counterexample: on an input containing a record whose
difficulty is outside Easy/Medium/Hard, the build does not fail with a
data-validation error; it completes and publishes a snapshot whose only
company counts the record in `questionCount` but in no difficulty bucket
(the bucket sum is zero while the question count is one). -/
theorem c3_counterexample_build_completes :
    (buildAggregatedData [qBadDifficulty] ["g"] []).stats.totalQuestionRecords = 1 ∧
    ((JsMap.get (buildAggregatedData [qBadDifficulty] ["g"] []).companies "g").map
      (fun c => (c.questionCount,
        c.difficultyBreakdown.easy + c.difficultyBreakdown.medium +
          c.difficultyBreakdown.hard))) = some (1, 0) := by
  decide

/-- Claim C3 as amended: the build never validates its input.  On every
raw input, including inputs with malformed records, `buildAggregatedData`
completes and publishes a snapshot whose record count is the full input
length; each aggregated company counts all of its records in
`questionCount`, while its difficulty buckets sum only to the records
whose lowercased difficulty is easy, medium or hard — so a record with an
out-of-domain difficulty yields partial aggregates instead of aborting
the build.  (In the running code a missing required field surfaces as a
generic runtime TypeError, not as a data-validation error.) -/
theorem c3_amended_no_validation (qs : List QuestionWithDetails)
    (cl tl : List String) :
    (buildAggregatedData qs cl tl).stats.totalQuestionRecords = qs.length ∧
    ∀ slug, OptHolds (fun c =>
        c.questionCount = (qs.filter (fun q => q.company = slug)).length ∧
        c.difficultyBreakdown.easy + c.difficultyBreakdown.medium +
          c.difficultyBreakdown.hard =
          (qs.filter (fun q => q.company = slug)).countP recognizedDifficulty)
      (JsMap.get (buildAggregatedData qs cl tl).companies slug) := by
  refine ⟨rfl, fun slug => ?_⟩
  have hcomp : (buildAggregatedData qs cl tl).companies =
      aggregateCompanies qs cl := rfl
  rw [hcomp]
  have h := aggregateCompanies_get qs cl slug
  cases hval : JsMap.get (aggregateCompanies qs cl) slug with
  | none => trivial
  | some c =>
    rw [hval] at h
    have hc : c = mkCompany slug (qs.filter (fun q => q.company = slug)) := h
    show c.questionCount = _ ∧ _
    rw [hc]
    exact ⟨rfl, calculateDifficultyBreakdown_sum _⟩

/-! ## Claim C4: difficulty breakdown sums to the question count -/

/-- Claim C4: for every raw record set (all difficulties in the
Easy/Medium/Hard domain of the data model) and every company produced by
`aggregateCompanies`, the three difficulty-breakdown counts sum to the
question count of the company. -/
theorem c4_breakdown_sums_to_count (qs : List QuestionWithDetails)
    (cl : List String) (hvalid : ∀ q ∈ qs, validDifficulty q.difficulty)
    (slug : String) :
    OptHolds (fun c =>
        c.difficultyBreakdown.easy + c.difficultyBreakdown.medium +
          c.difficultyBreakdown.hard = c.questionCount)
      (JsMap.get (aggregateCompanies qs cl) slug) := by
  have h := aggregateCompanies_get qs cl slug
  cases hval : JsMap.get (aggregateCompanies qs cl) slug with
  | none => trivial
  | some c =>
    rw [hval] at h
    have hc : c = mkCompany slug (qs.filter (fun q => q.company = slug)) := h
    have hcount : (qs.filter (fun q => q.company = slug)).countP
        recognizedDifficulty = (qs.filter (fun q => q.company = slug)).length :=
      List.countP_eq_length.mpr
        (fun q hq => recognized_of_valid (hvalid q (List.mem_filter.mp hq).1))
    show c.difficultyBreakdown.easy + c.difficultyBreakdown.medium +
      c.difficultyBreakdown.hard = c.questionCount
    rw [hc]
    show (calculateDifficultyBreakdown (qs.filter (fun q => q.company = slug))).easy +
      (calculateDifficultyBreakdown (qs.filter (fun q => q.company = slug))).medium +
      (calculateDifficultyBreakdown (qs.filter (fun q => q.company = slug))).hard =
      (qs.filter (fun q => q.company = slug)).length
    rw [calculateDifficultyBreakdown_sum]
    exact hcount

/-- Witness for claim C4 on the two-record spec example at the google
company. -/
theorem c4_breakdown_sums_to_count_witness :
    (∀ q ∈ [qGoogle, qAmazon], validDifficulty q.difficulty) ∧
    OptHolds (fun c =>
        c.difficultyBreakdown.easy + c.difficultyBreakdown.medium +
          c.difficultyBreakdown.hard = c.questionCount)
      (JsMap.get (aggregateCompanies [qGoogle, qAmazon] ["google", "amazon"])
        "google") :=
  ⟨by decide, c4_breakdown_sums_to_count [qGoogle, qAmazon]
    ["google", "amazon"] (by decide) "google"⟩

/-! ## Claim C10: unique question count bounded by question count -/

/-- Claim C10: every company produced by `aggregateCompanies` has a
distinct-slug count of at most its record count. -/
theorem c10_unique_le_total (qs : List QuestionWithDetails)
    (cl : List String) (slug : String) :
    OptHolds (fun c => c.uniqueQuestionCount ≤ c.questionCount)
      (JsMap.get (aggregateCompanies qs cl) slug) := by
  have h := aggregateCompanies_get qs cl slug
  cases hval : JsMap.get (aggregateCompanies qs cl) slug with
  | none => trivial
  | some c =>
    rw [hval] at h
    have hc : c = mkCompany slug (qs.filter (fun q => q.company = slug)) := h
    show c.uniqueQuestionCount ≤ c.questionCount
    rw [hc]
    show (jsDedup ((qs.filter (fun q => q.company = slug)).map (·.slug))).length ≤
      (qs.filter (fun q => q.company = slug)).length
    calc (jsDedup ((qs.filter (fun q => q.company = slug)).map (·.slug))).length
        ≤ ((qs.filter (fun q => q.company = slug)).map (·.slug)).length :=
          jsDedup_length_le _
      _ = (qs.filter (fun q => q.company = slug)).length := List.length_map _ _

/-! ## Claim C9: accessors on an absent slug -/

/-- Claim C9: for every slug not present in the built snapshot, the three
single-entity accessors return an absent result and the five list
accessors return an empty list.  All eight accessors are total functions
of the snapshot, so none of them can raise an error. -/
theorem c9_absent_slug_accessors (cache : BuildCache) (slug : String)
    (h : slugAbsent cache slug) :
    getCompanyBySlug cache slug = none ∧
    getTopicBySlug cache slug = none ∧
    getQuestionBySlug cache slug = none ∧
    getQuestionsByCompany cache slug = [] ∧
    getQuestionsByTopic cache slug = [] ∧
    getCompanyTopicCrossRefs cache slug = [] ∧
    getTopicCompanyCrossRefs cache slug = [] ∧
    getQuestionCompanies cache slug = [] := by
  obtain ⟨h1, h2, h3, h4, h5, h6, h7, h8⟩ := h
  refine ⟨JsMap.get_eq_none_of_not_mem_keys h1,
    JsMap.get_eq_none_of_not_mem_keys h2,
    JsMap.get_eq_none_of_not_mem_keys h3, ?_, ?_, ?_, ?_, ?_⟩
  · show JsMap.getD cache.companyQuestions slug [] = []
    rw [JsMap.getD, JsMap.get_eq_none_of_not_mem_keys h4, Option.getD_none]
  · show JsMap.getD cache.topicQuestions slug [] = []
    rw [JsMap.getD, JsMap.get_eq_none_of_not_mem_keys h5, Option.getD_none]
  · show JsMap.getD cache.crossRefs.companyTopics slug [] = []
    rw [JsMap.getD, JsMap.get_eq_none_of_not_mem_keys h6, Option.getD_none]
  · show JsMap.getD cache.crossRefs.topicCompanies slug [] = []
    rw [JsMap.getD, JsMap.get_eq_none_of_not_mem_keys h7, Option.getD_none]
  · show JsMap.getD cache.crossRefs.questionCompanies slug [] = []
    rw [JsMap.getD, JsMap.get_eq_none_of_not_mem_keys h8, Option.getD_none]

/-- Witness for claim C9 on the snapshot built from empty input and a
slug it does not contain. -/
theorem c9_absent_slug_accessors_witness :
    slugAbsent (buildAggregatedData [] [] []) "missing" ∧
    (getCompanyBySlug (buildAggregatedData [] [] []) "missing" = none ∧
     getTopicBySlug (buildAggregatedData [] [] []) "missing" = none ∧
     getQuestionBySlug (buildAggregatedData [] [] []) "missing" = none ∧
     getQuestionsByCompany (buildAggregatedData [] [] []) "missing" = [] ∧
     getQuestionsByTopic (buildAggregatedData [] [] []) "missing" = [] ∧
     getCompanyTopicCrossRefs (buildAggregatedData [] [] []) "missing" = [] ∧
     getTopicCompanyCrossRefs (buildAggregatedData [] [] []) "missing" = [] ∧
     getQuestionCompanies (buildAggregatedData [] [] []) "missing" = []) :=
  ⟨by decide, c9_absent_slug_accessors (buildAggregatedData [] [] [])
    "missing" (by decide)⟩

/-! ## Claim C8: company lists sorted by frequency descending -/

theorem deduplicateQuestions_entry_sorted {qs : List QuestionWithDetails}
    {p : String × UniqueQuestion} (hp : p ∈ deduplicateQuestions qs) :
    p.2.companies.Pairwise
      (fun a b : CompanyFrequency => b.frequency ≤ a.frequency) := by
  have hp2 : p ∈ (qs.foldl (fun m q =>
      if (JsMap.get m q.slug).isSome then m
      else
        let companies := List.insertionSort
          (fun a b : CompanyFrequency => b.frequency ≤ a.frequency)
          (JsMap.getD (questionCompaniesMap qs) q.slug [])
        let relatedSlugs := findRelatedQuestions qs q 5
        let seoDescription := generateQuestionDescription q companies
        JsMap.set m q.slug
          { id := q.id, slug := q.slug, title := q.title,
            difficulty := q.difficulty, topics := q.topics,
            acceptanceRate := q.acceptance_rate, companies,
            isPremium := q.isPremiumRaw = "Y", leetcodeUrl := q.link,
            seoDescription, relatedQuestions := relatedSlugs }) []) :=
    (List.perm_insertionSort _ _).subset hp
  refine foldl_preserve
    (P := fun m : List (String × UniqueQuestion) => ∀ r ∈ m,
      r.2.companies.Pairwise
        (fun a b : CompanyFrequency => b.frequency ≤ a.frequency))
    ?_ qs [] (by simp) p hp2
  intro acc b hacc
  dsimp only
  split
  · exact hacc
  · intro r hr
    rcases JsMap.mem_set hr with he | he
    · rw [he]
      exact List.sorted_insertionSort
        (fun a b : CompanyFrequency => b.frequency ≤ a.frequency) _
    · exact hacc r he

/-- Claim C8: every deduplicated question carries its company-frequency
pairs sorted by frequency descending, and on the two-record spec example
the two-sum entry lists google (frequency 80) before amazon (40). -/
theorem c8_dedup_companies_frequency_order :
    (∀ (qs : List QuestionWithDetails) (slug : String),
      OptHolds (fun u => u.companies.Pairwise
          (fun a b : CompanyFrequency => b.frequency ≤ a.frequency))
        (JsMap.get (deduplicateQuestions qs) slug)) ∧
    ((JsMap.get (deduplicateQuestions [qGoogle, qAmazon]) "two-sum").map
      (fun u => u.companies.map (fun cf => (cf.company, cf.frequency)))) =
      some [("google", (80 : ℚ)), ("amazon", (40 : ℚ))] := by
  constructor
  · intro qs slug
    cases hval : JsMap.get (deduplicateQuestions qs) slug with
    | none => trivial
    | some u =>
      show u.companies.Pairwise _
      exact deduplicateQuestions_entry_sorted (JsMap.mem_of_get_eq_some hval)
  · decide

/-! ## Claim C6: the related-company scoring pipeline -/

theorem contains_true_iff {l : List String} {x : String} :
    l.contains x = true ↔ x ∈ l :=
  List.elem_iff

theorem contains_jsDedup (l : List String) (x : String) :
    (jsDedup l).contains x = l.contains x := by
  by_cases h : x ∈ l
  · rw [contains_true_iff.mpr (mem_jsDedup_of_mem h), contains_true_iff.mpr h]
  · have h1 : (jsDedup l).contains x ≠ true :=
      fun hh => h (mem_of_mem_jsDedup (contains_true_iff.mp hh))
    have h2 : l.contains x ≠ true := fun hh => h (contains_true_iff.mp hh)
    rw [Bool.eq_false_iff.mpr h1, Bool.eq_false_iff.mpr h2]

theorem relatedCompanyScore_eq_spec (cur cand : Company) :
    relatedCompanyScore (jsDedup (cur.topTopics.map (·.slug)))
      (getCompanyTier cur.slug) cur.questionCount cand =
      specRelatedCompanyScore cur cand := by
  have hfil : cand.topTopics.filter
      (fun t => (jsDedup (cur.topTopics.map (·.slug))).contains t.slug) =
      cand.topTopics.filter
        (fun t => (cur.topTopics.map (·.slug)).contains t.slug) :=
    List.filter_congr (fun t _ => contains_jsDedup _ _)
  unfold relatedCompanyScore specRelatedCompanyScore
  rw [hfil]
  ring

/-- Claim C6: `getRelatedCompanies` computes exactly the pipeline stated
by the spec: every candidate other than the current company is scored
(ten per shared top-topic slug, five for an equal tier, three for a
numerically lower tier, three for a question-count difference under
fifty plus one more under one hundred), non-positive scores are excluded,
the rest is sorted by score descending and truncated to the limit. -/
theorem c6_related_companies_pipeline (cur : Company)
    (all : List (String × Company)) (limit : Nat) :
    getRelatedCompanies cur all limit = specRelatedCompanies cur all limit := by
  have hscored : (JsMap.values all).filterMap (fun company =>
      if company.slug = cur.slug then none
      else
        if relatedCompanyScore (jsDedup (cur.topTopics.map (·.slug)))
            (getCompanyTier cur.slug) cur.questionCount company > 0 then
          some (company, relatedCompanyScore (jsDedup (cur.topTopics.map (·.slug)))
            (getCompanyTier cur.slug) cur.questionCount company)
        else none) =
      ((JsMap.values all).filter
        (fun company => company.slug ≠ cur.slug)).filterMap
        (fun company =>
          if specRelatedCompanyScore cur company > 0 then
            some (company, specRelatedCompanyScore cur company)
          else none) := by
    rw [List.filterMap_filter]
    apply List.filterMap_congr
    intro c _
    by_cases h : c.slug = cur.slug
    · simp [h]
    · simp [h, relatedCompanyScore_eq_spec cur c]
  have h1 : getRelatedCompanies cur all limit =
      ((List.insertionSort (fun a b : Company × Nat => b.2 ≤ a.2)
        ((JsMap.values all).filterMap (fun company =>
          if company.slug = cur.slug then none
          else
            if relatedCompanyScore (jsDedup (cur.topTopics.map (·.slug)))
                (getCompanyTier cur.slug) cur.questionCount company > 0 then
              some (company, relatedCompanyScore
                (jsDedup (cur.topTopics.map (·.slug)))
                (getCompanyTier cur.slug) cur.questionCount company)
            else none))).take limit).map (fun p => mkCompanyLink p.1) := rfl
  have h2 : specRelatedCompanies cur all limit =
      ((List.insertionSort (fun a b : Company × Nat => b.2 ≤ a.2)
        (((JsMap.values all).filter
          (fun company => company.slug ≠ cur.slug)).filterMap
          (fun company =>
            if specRelatedCompanyScore cur company > 0 then
              some (company, specRelatedCompanyScore cur company)
            else none))).take limit).map (fun p => mkCompanyLink p.1) := rfl
  rw [h1, h2, hscored]

/-! ## Claim C5: cross-reference bucket analysis -/

theorem sum_map_ite_prop_eq_countP {β : Type} (p : β → Prop) [DecidablePred p]
    (l : List β) :
    (l.map (fun b => if p b then 1 else 0)).sum =
      l.countP (fun b => decide (p b)) := by
  induction l with
  | nil => simp
  | cons b bs ih =>
    simp only [List.map_cons, List.sum_cons, List.countP_cons, ih]
    by_cases hb : p b
    · simp [hb]; omega
    · simp [hb]

theorem getD_crossRefMap_length (qs : List QuestionWithDetails) (key : String) :
    (JsMap.getD (crossRefMap qs) key []).length = keyOcc qs key := by
  have hinner : ∀ (q : QuestionWithDetails)
      (m : List (String × List QuestionWithDetails)),
      (JsMap.getD (q.topics.foldl (fun m topic =>
          JsMap.upsertAppend m (crossKey q topic) q) m) key []).length =
        (JsMap.getD m key []).length +
          q.topics.countP (fun t => crossKey q t = key) := by
    intro q m
    have h := foldl_transfer
      (fun m : List (String × List QuestionWithDetails) =>
        (JsMap.getD m key []).length)
      (fun m topic => JsMap.upsertAppend m (crossKey q topic) q)
      (fun n topic => n + if crossKey q topic = key then 1 else 0)
      (fun m2 topic => by
        dsimp only
        by_cases hk : crossKey q topic = key
        · rw [if_pos hk, ← hk, JsMap.getD_upsertAppend_self]
          simp
        · rw [if_neg hk,
            JsMap.getD_upsertAppend_ne _ _ (fun hh => hk hh.symm)]
          simp)
      q.topics m
    rw [h, foldl_add_map, sum_map_ite_prop_eq_countP]
  have houter := foldl_transfer
    (fun m : List (String × List QuestionWithDetails) =>
      (JsMap.getD m key []).length)
    (fun m q => q.topics.foldl (fun m topic =>
      JsMap.upsertAppend m (crossKey q topic) q) m)
    (fun n q => n + q.topics.countP (fun t => crossKey q t = key))
    (fun m q => hinner q m)
    qs []
  unfold crossRefMap keyOcc
  rw [houter, foldl_add_map]
  simp [JsMap.getD, JsMap.get]

theorem crossRefMap_key_from (qs : List QuestionWithDetails) :
    ∀ p ∈ crossRefMap qs, ∃ q ∈ qs, ∃ t ∈ q.topics, p.1 = crossKey q t := by
  unfold crossRefMap
  refine foldl_preserve_mem
    (P := fun m : List (String × List QuestionWithDetails) =>
      ∀ p ∈ m, ∃ q ∈ qs, ∃ t ∈ q.topics, p.1 = crossKey q t)
    qs ?_ [] (by simp)
  intro acc q hq hacc
  dsimp only
  refine foldl_preserve_mem
    (P := fun m : List (String × List QuestionWithDetails) =>
      ∀ p ∈ m, ∃ q2 ∈ qs, ∃ t ∈ q2.topics, p.1 = crossKey q2 t)
    q.topics ?_ acc hacc
  intro acc2 t ht hacc2 p hp
  rcases JsMap.mem_upsertAppend hp with he | he
  · exact ⟨q, hq, t, ht, by rw [he]⟩
  · exact hacc2 p he

theorem crossRefMap_nodupKeys (qs : List QuestionWithDetails) :
    (JsMap.keysList (crossRefMap qs)).Nodup := by
  unfold crossRefMap
  refine foldl_preserve
    (P := fun m : List (String × List QuestionWithDetails) =>
      (JsMap.keysList m).Nodup)
    ?_ qs [] (by simp [JsMap.keysList])
  intro acc q hacc
  dsimp only
  refine foldl_preserve
    (P := fun m : List (String × List QuestionWithDetails) =>
      (JsMap.keysList m).Nodup)
    ?_ q.topics acc hacc
  intro acc2 t hacc2
  exact JsMap.nodupKeys_upsertAppend _ _ hacc2

theorem get_map_sortVals {γ : Type} (m : List (String × List γ))
    (r : γ → γ → Prop) [DecidableRel r] (k : String) :
    JsMap.get (m.map (fun p => (p.1, List.insertionSort r p.2))) k =
      (JsMap.get m k).map (List.insertionSort r) := by
  induction m with
  | nil => simp [JsMap.get]
  | cons p rest ih =>
    obtain ⟨k0, v0⟩ := p
    by_cases h : k0 = k
    · simp [JsMap.get, h]
    · simp [JsMap.get, h, ih]

theorem splitOnChar_no_sep {sep : Char} {t : List Char} (ht : sep ∉ t) :
    splitOnChar sep t = [t] := by
  induction t with
  | nil => rfl
  | cons c cs ih =>
    have hc : ¬ c = sep := fun hh => ht (hh ▸ List.mem_cons_self _ _)
    have hcs : sep ∉ cs := fun hh => ht (List.mem_cons_of_mem _ hh)
    simp only [splitOnChar, if_neg hc, ih hcs]

theorem splitOnChar_append {sep : Char} {c : List Char} (t : List Char)
    (hc : sep ∉ c) :
    splitOnChar sep (c ++ sep :: t) = c :: splitOnChar sep t := by
  induction c with
  | nil => simp [splitOnChar]
  | cons a as ih =>
    have ha : ¬ a = sep := fun hh => hc (hh ▸ List.mem_cons_self _ _)
    have has : sep ∉ as := fun hh => hc (List.mem_cons_of_mem _ hh)
    have ih2 : splitOnChar sep (as.append (sep :: t)) =
        as :: splitOnChar sep t := ih has
    simp only [List.cons_append, splitOnChar, if_neg ha, ih has, ih2]

theorem keyParts_crossKey {q : QuestionWithDetails} {t : String}
    (hc : ':' ∉ q.company.data) (ht : ':' ∉ (lowerStr t).data) :
    keyParts (crossKey q t) = (q.company, lowerStr t) := by
  unfold keyParts crossKey
  have hdata : (q.company ++ ":" ++ lowerStr t).data =
      q.company.data ++ ':' :: (lowerStr t).data := by
    rw [String.data_append, String.data_append, List.append_assoc]
    rfl
  rw [hdata, splitOnChar_append _ hc, splitOnChar_no_sep ht]

theorem crossKey_eq_iff {q1 q2 : QuestionWithDetails} {t1 t2 : String}
    (h1c : ':' ∉ q1.company.data) (h1t : ':' ∉ (lowerStr t1).data)
    (h2c : ':' ∉ q2.company.data) (h2t : ':' ∉ (lowerStr t2).data) :
    crossKey q1 t1 = crossKey q2 t2 ↔
      (q1.company = q2.company ∧ lowerStr t1 = lowerStr t2) := by
  constructor
  · intro h
    have h2 := congrArg keyParts h
    rw [keyParts_crossKey h1c h1t, keyParts_crossKey h2c h2t] at h2
    exact ⟨congrArg Prod.fst h2, congrArg Prod.snd h2⟩
  · rintro ⟨ha, hb⟩
    unfold crossKey
    rw [ha, hb]

theorem keyOcc_eq_occurrences {qs : List QuestionWithDetails}
    (hc : ∀ q ∈ qs, ':' ∉ q.company.data)
    (ht : ∀ q ∈ qs, ∀ t ∈ q.topics, ':' ∉ (lowerStr t).data)
    {q0 : QuestionWithDetails} {t0 : String}
    (h0c : ':' ∉ q0.company.data) (h0t : ':' ∉ (lowerStr t0).data) :
    keyOcc qs (crossKey q0 t0) =
      occurrencesWithTopic qs q0.company (lowerStr t0) := by
  unfold keyOcc occurrencesWithTopic
  apply congrArg List.sum
  apply List.map_congr_left
  intro q hq
  by_cases hqc : q.company = q0.company
  · rw [if_pos hqc]
    apply List.countP_congr
    intro t htq
    simp only [decide_eq_true_eq]
    rw [crossKey_eq_iff (hc q hq) (ht q hq t htq) h0c h0t]
    constructor
    · exact fun hh => hh.2
    · exact fun hh => ⟨hqc, hh⟩
  · rw [if_neg hqc]
    apply List.countP_eq_zero.mpr
    intro t htq
    simp only [decide_eq_true_eq]
    intro hh
    exact hqc ((crossKey_eq_iff (hc q hq) (ht q hq t htq) h0c h0t).mp hh).1

theorem countP_lower_eq_ite {l : List String} {tl : String}
    (hnd : (l.map lowerStr).Nodup) :
    l.countP (fun t => lowerStr t = tl) =
      if l.any (fun t => lowerStr t = tl) then 1 else 0 := by
  induction l with
  | nil => simp
  | cons t ts ih =>
    rw [List.map_cons, List.nodup_cons] at hnd
    by_cases hteq : lowerStr t = tl
    · have hzero : ts.countP (fun t2 => lowerStr t2 = tl) = 0 := by
        apply List.countP_eq_zero.mpr
        intro t2 ht2
        simp only [decide_eq_true_eq]
        intro hh
        exact hnd.1 (by
          rw [hteq, ← hh]
          exact List.mem_map.mpr ⟨t2, ht2, rfl⟩)
      rw [List.countP_cons, hzero]
      simp [hteq]
    · rw [List.countP_cons, ih hnd.2]
      simp [List.any_cons, hteq]

theorem occurrences_eq_records (qs : List QuestionWithDetails) (c tl : String) :
    (∀ q ∈ qs, (q.topics.map lowerStr).Nodup) →
    occurrencesWithTopic qs c tl = specRecordsWithTopic qs c tl := by
  induction qs with
  | nil => intro _; simp [occurrencesWithTopic, specRecordsWithTopic]
  | cons q qs2 ih =>
    intro hnd
    have hq := hnd q (List.mem_cons_self _ _)
    have hih := ih (fun r hr => hnd r (List.mem_cons_of_mem _ hr))
    unfold occurrencesWithTopic specRecordsWithTopic at hih ⊢
    simp only [List.map_cons, List.sum_cons, List.filter_cons]
    by_cases hcq : q.company = c
    · rw [if_pos hcq, countP_lower_eq_ite hq]
      by_cases hany : q.topics.any (fun t => lowerStr t = tl)
      · rw [if_pos hany,
          if_pos (by simp only [decide_eq_true_eq]; exact ⟨hcq, hany⟩)]
        simp only [List.length_cons]
        omega
      · rw [if_neg hany,
          if_neg (by simp only [decide_eq_true_eq]; intro hh; exact hany hh.2)]
        simpa using hih
    · rw [if_neg hcq,
        if_neg (by simp only [decide_eq_true_eq]; intro hh; exact hcq hh.1)]
      simpa using hih

theorem buildCrossReferenceIndex_companyTopics_entry
    (qs : List QuestionWithDetails) (c : String)
    {refs : List CompanyTopicCrossRef}
    (hval : JsMap.get (buildCrossReferenceIndex qs).companyTopics c = some refs) :
    ∀ r ∈ refs, ∃ kb ∈ crossRefMap qs,
      r = mkCrossRef kb.1 kb.2 ∧ r.companySlug = c := by
  have hct : (buildCrossReferenceIndex qs).companyTopics =
      (((crossRefMap qs).map (fun kb => mkCrossRef kb.1 kb.2)).foldl
        (fun m ref => JsMap.upsertAppend m ref.companySlug ref) []).map
        (fun p => (p.1, List.insertionSort
          (fun a b : CompanyTopicCrossRef =>
            b.questionCount ≤ a.questionCount) p.2)) := rfl
  rw [hct, get_map_sortVals] at hval
  rcases Option.map_eq_some'.mp hval with ⟨lst, hlst, hrefs⟩
  intro r hr
  have hrlst : r ∈ lst := (List.perm_insertionSort _ _).subset (hrefs ▸ hr)
  have hinv : ∀ c2 lst2,
      JsMap.get (((crossRefMap qs).map (fun kb => mkCrossRef kb.1 kb.2)).foldl
        (fun m ref => JsMap.upsertAppend m ref.companySlug ref) []) c2 =
        some lst2 →
      ∀ r2 ∈ lst2, (∃ kb ∈ crossRefMap qs, r2 = mkCrossRef kb.1 kb.2) ∧
        r2.companySlug = c2 := by
    refine foldl_preserve_mem
      (P := fun m : List (String × List CompanyTopicCrossRef) =>
        ∀ c2 lst2, JsMap.get m c2 = some lst2 → ∀ r2 ∈ lst2,
          (∃ kb ∈ crossRefMap qs, r2 = mkCrossRef kb.1 kb.2) ∧
            r2.companySlug = c2)
      ((crossRefMap qs).map (fun kb => mkCrossRef kb.1 kb.2)) ?_ [] ?_
    · intro acc ref href hacc c2 lst2 hget r2 hr2
      unfold JsMap.upsertAppend at hget
      by_cases hc2 : c2 = ref.companySlug
      · subst hc2
        rw [JsMap.get_set_self] at hget
        have hlst2 : lst2 = JsMap.getD acc ref.companySlug [] ++ [ref] :=
          (Option.some.inj hget).symm
        rcases List.mem_append.mp (hlst2 ▸ hr2) with hmem | hmem
        · unfold JsMap.getD at hmem
          cases hacc2 : JsMap.get acc ref.companySlug with
          | none =>
            rw [hacc2] at hmem
            simp at hmem
          | some lst0 =>
            rw [hacc2] at hmem
            simp only [Option.getD_some] at hmem
            exact hacc ref.companySlug lst0 hacc2 r2 hmem
        · have hr2eq : r2 = ref := by simpa using hmem
          subst hr2eq
          rcases List.mem_map.mp href with ⟨kb, hkb, hkbeq⟩
          exact ⟨⟨kb, hkb, hkbeq.symm⟩, rfl⟩
      · rw [JsMap.get_set_ne _ _ hc2] at hget
        exact hacc c2 lst2 hget r2 hr2
    · intro c2 lst2 hget
      simp [JsMap.get] at hget
  obtain ⟨⟨kb, hkb, hrkb⟩, hslug⟩ := hinv c lst hlst r hrlst
  exact ⟨kb, hkb, hrkb, hslug⟩

/-- Claim C5 counterexample: for the one-record input whose topic list
names the topic twice up to case, the cross-reference stored under the
company carries questionCount two, while only one raw record of that
company contains the topic — the index counts topic-list occurrences, not
records. -/
theorem c5_counterexample_duplicate_topic :
    ((JsMap.get (buildCrossReferenceIndex [qDupTopic]).companyTopics "g").map
      (fun refs => refs.map (fun r => (r.topicSlug, r.questionCount)))) =
      some [("a", 2)] ∧
    specRecordsWithTopic [qDupTopic] "g" "a" = 1 := by
  decide

/-- Claim C5 as amended: provided no company string contains a colon, no
topic contains a colon after lowercasing (the bucket key is the colon
join of the two), and no record names the same topic twice up to case,
every cross-reference stored in the company view of the index counts
exactly the raw records of its company whose topic list contains its
topic case-insensitively.  Without the last proviso the stored count is
the number of topic-list occurrences rather than records. -/
theorem c5_amended_crossref_counts (qs : List QuestionWithDetails)
    (hc : ∀ q ∈ qs, ':' ∉ q.company.data)
    (ht : ∀ q ∈ qs, ∀ t ∈ q.topics, ':' ∉ (lowerStr t).data)
    (hnd : ∀ q ∈ qs, (q.topics.map lowerStr).Nodup)
    (c : String) (refs : List CompanyTopicCrossRef)
    (hval : JsMap.get (buildCrossReferenceIndex qs).companyTopics c = some refs)
    (r : CompanyTopicCrossRef) (hr : r ∈ refs) :
    ∃ topicLower, r.companySlug = c ∧ r.topicSlug = hyphenate topicLower ∧
      r.questionCount = specRecordsWithTopic qs c topicLower := by
  obtain ⟨kb, hkb, hreq, hslug⟩ :=
    buildCrossReferenceIndex_companyTopics_entry qs c hval r hr
  obtain ⟨q, hq, t, htq, hkey⟩ := crossRefMap_key_from qs kb hkb
  have hparts : keyParts kb.1 = (q.company, lowerStr t) := by
    rw [hkey]
    exact keyParts_crossKey (hc q hq) (ht q hq t htq)
  have hcompany : r.companySlug = q.company := by
    rw [hreq]
    show (keyParts kb.1).1 = q.company
    rw [hparts]
  have hcq : q.company = c := by rw [← hcompany, hslug]
  refine ⟨lowerStr t, hslug, ?_, ?_⟩
  · rw [hreq]
    show hyphenate (keyParts kb.1).2 = hyphenate (lowerStr t)
    rw [hparts]
  · rw [hreq]
    show kb.2.length = specRecordsWithTopic qs c (lowerStr t)
    have hget : JsMap.get (crossRefMap qs) kb.1 = some kb.2 :=
      JsMap.get_eq_some_of_mem (crossRefMap_nodupKeys qs) hkb
    have hlen : kb.2.length = keyOcc qs kb.1 := by
      have hx := getD_crossRefMap_length qs kb.1
      rw [JsMap.getD, hget] at hx
      simpa using hx
    rw [hlen, hkey,
      keyOcc_eq_occurrences hc ht (hc q hq) (ht q hq t htq),
      occurrences_eq_records qs q.company (lowerStr t) hnd, hcq]

/-- Witness for claim C5 on the two-record spec example: the hypotheses
hold, the google cross-reference list exists, and its first entry counts
exactly the google records containing its topic. -/
theorem c5_amended_crossref_counts_witness :
    (∀ q ∈ [qGoogle, qAmazon], ':' ∉ q.company.data) ∧
    (∀ q ∈ [qGoogle, qAmazon], ∀ t ∈ q.topics, ':' ∉ (lowerStr t).data) ∧
    (∀ q ∈ [qGoogle, qAmazon], (q.topics.map lowerStr).Nodup) ∧
    JsMap.get (buildCrossReferenceIndex [qGoogle, qAmazon]).companyTopics
      "google" = some (JsMap.getD
        (buildCrossReferenceIndex [qGoogle, qAmazon]).companyTopics "google" []) ∧
    ((JsMap.getD (buildCrossReferenceIndex [qGoogle, qAmazon]).companyTopics
        "google" []).headD placeholderCrossRef ∈
      JsMap.getD (buildCrossReferenceIndex [qGoogle, qAmazon]).companyTopics
        "google" []) ∧
    ∃ topicLower,
      ((JsMap.getD (buildCrossReferenceIndex [qGoogle, qAmazon]).companyTopics
          "google" []).headD placeholderCrossRef).companySlug = "google" ∧
      ((JsMap.getD (buildCrossReferenceIndex [qGoogle, qAmazon]).companyTopics
          "google" []).headD placeholderCrossRef).topicSlug =
        hyphenate topicLower ∧
      ((JsMap.getD (buildCrossReferenceIndex [qGoogle, qAmazon]).companyTopics
          "google" []).headD placeholderCrossRef).questionCount =
        specRecordsWithTopic [qGoogle, qAmazon] "google" topicLower :=
  ⟨by decide, by decide, by decide, by decide, by decide,
    c5_amended_crossref_counts [qGoogle, qAmazon] (by decide) (by decide)
      (by decide) "google"
      (JsMap.getD (buildCrossReferenceIndex [qGoogle, qAmazon]).companyTopics
        "google" [])
      (by decide)
      ((JsMap.getD (buildCrossReferenceIndex [qGoogle, qAmazon]).companyTopics
        "google" []).headD placeholderCrossRef)
      (by decide)⟩

/-! ## Claim C7: infrastructure lemmas -/

theorem canonicalUrl_company (s : String) :
    getCanonicalUrl "company" [("slug", s)] =
      String.mk ("https://codejeet.vercel.app/company/".data ++ s.data) := by
  have h : getCanonicalUrl "company" [("slug", s)] =
      String.mk ("https://codejeet.vercel.app/company/".data ++ (s.data ++ [])) := rfl
  rw [h, List.append_nil]

theorem canonicalUrl_topic (s : String) :
    getCanonicalUrl "topic" [("slug", s)] =
      String.mk ("https://codejeet.vercel.app/topic/".data ++ s.data) := by
  have h : getCanonicalUrl "topic" [("slug", s)] =
      String.mk ("https://codejeet.vercel.app/topic/".data ++ (s.data ++ [])) := rfl
  rw [h, List.append_nil]

theorem canonicalUrl_problem (s : String) :
    getCanonicalUrl "problem" [("slug", s)] =
      String.mk ("https://codejeet.vercel.app/problem/".data ++ s.data) := by
  have h : getCanonicalUrl "problem" [("slug", s)] =
      String.mk ("https://codejeet.vercel.app/problem/".data ++ (s.data ++ [])) := rfl
  rw [h, List.append_nil]

theorem strMk_append_inj (pre : List Char) {a b : String}
    (h : String.mk (pre ++ a.data) = String.mk (pre ++ b.data)) : a = b := by
  have hd : pre ++ a.data = pre ++ b.data := congrArg String.data h
  have hab := List.append_cancel_left hd
  obtain ⟨da⟩ := a
  obtain ⟨db⟩ := b
  exact congrArg String.mk hab

theorem companyHref_inj {a b : String}
    (h : getCanonicalUrl "company" [("slug", a)] =
      getCanonicalUrl "company" [("slug", b)]) : a = b := by
  rw [canonicalUrl_company, canonicalUrl_company] at h
  exact strMk_append_inj _ h

theorem topicHref_inj {a b : String}
    (h : getCanonicalUrl "topic" [("slug", a)] =
      getCanonicalUrl "topic" [("slug", b)]) : a = b := by
  rw [canonicalUrl_topic, canonicalUrl_topic] at h
  exact strMk_append_inj _ h

theorem problemHref_inj {a b : String}
    (h : getCanonicalUrl "problem" [("slug", a)] =
      getCanonicalUrl "problem" [("slug", b)]) : a = b := by
  rw [canonicalUrl_problem, canonicalUrl_problem] at h
  exact strMk_append_inj _ h

theorem values_pairwise_of_nodupKeys {α : Type} (f : α → String)
    {m : List (String × α)} (hn : (JsMap.keysList m).Nodup)
    (hs : ∀ p ∈ m, f p.2 = p.1) :
    (JsMap.values m).Pairwise (fun a b => f a ≠ f b) := by
  have h1 : m.Pairwise (fun p q => p.1 ≠ q.1) := (List.pairwise_map).mp hn
  have h2 : m.Pairwise (fun p q => f p.2 ≠ f q.2) := by
    refine h1.imp_of_mem ?_
    intro p q hp hq hne
    rw [hs p hp, hs q hq]
    exact hne
  exact (List.pairwise_map).mpr h2

theorem pairwise_sort_take {γ : Type} {R : γ → γ → Prop}
    (hsym : ∀ {a b : γ}, R a b → R b a) (r : γ → γ → Prop) [DecidableRel r]
    (l : List γ) (k : Nat) (h : l.Pairwise R) :
    ((List.insertionSort r l).take k).Pairwise R :=
  List.Pairwise.sublist (List.take_sublist _ _)
    (((List.perm_insertionSort r l).pairwise_iff hsym).mpr h)

theorem mem_sort_take {γ : Type} (r : γ → γ → Prop) [DecidableRel r]
    {l : List γ} {k : Nat} {x : γ}
    (h : x ∈ (List.insertionSort r l).take k) : x ∈ l :=
  (List.perm_insertionSort r l).subset (List.mem_of_mem_take h)

theorem filterMap_fst_eq {γ : Type} {f : γ → Option (γ × Nat)} {l : List γ}
    {R : γ → γ → Prop} (hf : ∀ a p, f a = some p → p.1 = a)
    (h : l.Pairwise R) :
    (l.filterMap f).Pairwise (fun p q : γ × Nat => R p.1 q.1) := by
  rw [List.pairwise_filterMap]
  refine h.imp ?_
  intro a b hab p hp q hq
  rw [hf a p (Option.mem_def.mp hp), hf b q (Option.mem_def.mp hq)]
  exact hab

theorem getRelatedCompanies_no_self_nodup (cur : Company)
    (m : List (String × Company)) (limit : Nat)
    (hpw : (JsMap.values m).Pairwise (fun a b : Company => a.slug ≠ b.slug)) :
    (∀ l ∈ getRelatedCompanies cur m limit,
      l.href ≠ getCanonicalUrl "company" [("slug", cur.slug)]) ∧
    ((getRelatedCompanies cur m limit).map (fun l => l.href)).Nodup := by
  have hlinks : getRelatedCompanies cur m limit =
      ((List.insertionSort (fun a b : Company × Nat => b.2 ≤ a.2)
        ((JsMap.values m).filterMap (fun company =>
          if company.slug = cur.slug then none
          else if relatedCompanyScore (jsDedup (cur.topTopics.map (·.slug)))
              (getCompanyTier cur.slug) cur.questionCount company > 0 then
            some (company, relatedCompanyScore
              (jsDedup (cur.topTopics.map (·.slug)))
              (getCompanyTier cur.slug) cur.questionCount company)
          else none))).take limit).map (fun p => mkCompanyLink p.1) := rfl
  have hf : ∀ (a : Company) (p : Company × Nat),
      (if a.slug = cur.slug then none
        else if relatedCompanyScore (jsDedup (cur.topTopics.map (·.slug)))
            (getCompanyTier cur.slug) cur.questionCount a > 0 then
          some (a, relatedCompanyScore (jsDedup (cur.topTopics.map (·.slug)))
            (getCompanyTier cur.slug) cur.questionCount a)
        else none) = some p → p.1 = a ∧ a.slug ≠ cur.slug := by
    intro a p hfa
    by_cases hs : a.slug = cur.slug
    · rw [if_pos hs] at hfa
      exact absurd hfa (by simp)
    · rw [if_neg hs] at hfa
      split at hfa
      · exact ⟨congrArg Prod.fst (Option.some.inj hfa).symm, hs⟩
      · exact absurd hfa (by simp)
  constructor
  · intro l hl
    rw [hlinks] at hl
    rcases List.mem_map.mp hl with ⟨p, hp, hpl⟩
    have hpmem := mem_sort_take _ hp
    rcases List.mem_filterMap.mp hpmem with ⟨a, _, hfa⟩
    obtain ⟨hfst, hne⟩ := hf a p hfa
    intro heq
    apply hne
    rw [← hfst]
    apply companyHref_inj
    have hhref : l.href = getCanonicalUrl "company" [("slug", p.1.slug)] := by
      rw [← hpl]
      rfl
    rw [← hhref, heq]
  · rw [hlinks, List.map_map]
    have hpw2 : ((JsMap.values m).filterMap _).Pairwise
        (fun p q : Company × Nat => p.1.slug ≠ q.1.slug) :=
      filterMap_fst_eq (fun a p hp => (hf a p hp).1) hpw
    have htake := pairwise_sort_take (fun hab => hab.symm)
      (fun a b : Company × Nat => b.2 ≤ a.2) _ limit hpw2
    exact (List.pairwise_map).mpr (htake.imp
      (fun hpq heq => hpq (companyHref_inj heq)))

theorem getRelatedTopics_no_self_nodup (cur : Topic)
    (m : List (String × Topic)) (limit : Nat)
    (hpw : (JsMap.values m).Pairwise (fun a b : Topic => a.slug ≠ b.slug))
    (hkey : ∀ p ∈ m, p.2.slug = p.1)
    (hself : cur.slug ∉ cur.relatedTopics) :
    (∀ l ∈ getRelatedTopics cur m limit,
      l.href ≠ getCanonicalUrl "topic" [("slug", cur.slug)]) ∧
    ((getRelatedTopics cur m limit).map (fun l => l.href)).Nodup := by
  have hf1 : ∀ (s : String) (l : InternalLink),
      (JsMap.get m s).map (fun topic => mkTopicLink topic 1) = some l →
      l.href = getCanonicalUrl "topic" [("slug", s)] := by
    intro s l hfa
    rcases Option.map_eq_some'.mp hfa with ⟨tp, hget, hl⟩
    have hslug : tp.slug = s := hkey (s, tp) (JsMap.mem_of_get_eq_some hget)
    rw [← hl]
    show getCanonicalUrl "topic" [("slug", tp.slug)] = _
    rw [hslug]
  have hL1mem : ∀ l ∈ (jsDedup cur.relatedTopics).filterMap
      (fun slug => (JsMap.get m slug).map (fun topic => mkTopicLink topic 1)),
      ∃ s ∈ jsDedup cur.relatedTopics,
        l.href = getCanonicalUrl "topic" [("slug", s)] := by
    intro l hl
    rcases List.mem_filterMap.mp hl with ⟨s, hs, hfa⟩
    exact ⟨s, hs, hf1 s l hfa⟩
  have hL1pw : ((jsDedup cur.relatedTopics).filterMap
      (fun slug => (JsMap.get m slug).map (fun topic => mkTopicLink topic 1))).Pairwise
      (fun l1 l2 : InternalLink => l1.href ≠ l2.href) := by
    rw [List.pairwise_filterMap]
    have hnd : (jsDedup cur.relatedTopics).Pairwise (fun a b => a ≠ b) :=
      jsDedup_nodup _
    refine hnd.imp ?_
    intro s s2 hss b hb b2 hb2
    rw [hf1 s b (Option.mem_def.mp hb), hf1 s2 b2 (Option.mem_def.mp hb2)]
    intro heq
    exact hss (topicHref_inj heq)
  have hL1self : ∀ l ∈ (jsDedup cur.relatedTopics).filterMap
      (fun slug => (JsMap.get m slug).map (fun topic => mkTopicLink topic 1)),
      l.href ≠ getCanonicalUrl "topic" [("slug", cur.slug)] := by
    intro l hl
    rcases hL1mem l hl with ⟨s, hs, hhref⟩
    rw [hhref]
    intro heq
    apply hself
    have hseq : s = cur.slug := topicHref_inj heq
    rw [← hseq]
    exact mem_of_mem_jsDedup hs
  have hPmem : ∀ tp ∈ (List.insertionSort
      (fun a b : Topic => b.questionCount ≤ a.questionCount)
      ((JsMap.values m).filter (fun t =>
        t.slug ≠ cur.slug ∧ ¬ (jsDedup cur.relatedTopics).contains t.slug))).take
      (limit - ((jsDedup cur.relatedTopics).filterMap
        (fun slug => (JsMap.get m slug).map (fun topic => mkTopicLink topic 1))).length),
      tp.slug ≠ cur.slug ∧ tp.slug ∉ jsDedup cur.relatedTopics := by
    intro tp htp
    have hmem := mem_sort_take _ htp
    have hcond := (List.mem_filter.mp hmem).2
    rw [decide_eq_true_eq] at hcond
    refine ⟨hcond.1, fun hmem2 => hcond.2 ?_⟩
    exact contains_true_iff.mpr hmem2
  have hPpw : ((List.insertionSort
      (fun a b : Topic => b.questionCount ≤ a.questionCount)
      ((JsMap.values m).filter (fun t =>
        t.slug ≠ cur.slug ∧ ¬ (jsDedup cur.relatedTopics).contains t.slug))).take
      (limit - ((jsDedup cur.relatedTopics).filterMap
        (fun slug => (JsMap.get m slug).map (fun topic => mkTopicLink topic 1))).length)).Pairwise
      (fun a b : Topic => a.slug ≠ b.slug) :=
    pairwise_sort_take (fun hab => hab.symm) _ _ _
      (List.Pairwise.sublist (List.filter_sublist _) hpw)
  have hL2pw : (((List.insertionSort
      (fun a b : Topic => b.questionCount ≤ a.questionCount)
      ((JsMap.values m).filter (fun t =>
        t.slug ≠ cur.slug ∧ ¬ (jsDedup cur.relatedTopics).contains t.slug))).take
      (limit - ((jsDedup cur.relatedTopics).filterMap
        (fun slug => (JsMap.get m slug).map (fun topic => mkTopicLink topic 1))).length)).map
      (fun topic => mkTopicLink topic (0.7 : ℚ))).Pairwise
      (fun l1 l2 : InternalLink => l1.href ≠ l2.href) := by
    refine (List.pairwise_map).mpr (hPpw.imp ?_)
    intro a b hab heq
    exact hab (topicHref_inj heq)
  have hL2self : ∀ l ∈ ((List.insertionSort
      (fun a b : Topic => b.questionCount ≤ a.questionCount)
      ((JsMap.values m).filter (fun t =>
        t.slug ≠ cur.slug ∧ ¬ (jsDedup cur.relatedTopics).contains t.slug))).take
      (limit - ((jsDedup cur.relatedTopics).filterMap
        (fun slug => (JsMap.get m slug).map (fun topic => mkTopicLink topic 1))).length)).map
      (fun topic => mkTopicLink topic (0.7 : ℚ)),
      l.href ≠ getCanonicalUrl "topic" [("slug", cur.slug)] := by
    intro l hl
    rcases List.mem_map.mp hl with ⟨tp, htp, hl2⟩
    rw [← hl2]
    show getCanonicalUrl "topic" [("slug", tp.slug)] ≠ _
    intro heq
    exact (hPmem tp htp).1 (topicHref_inj heq)
  have hcross : ∀ l1 ∈ (jsDedup cur.relatedTopics).filterMap
      (fun slug => (JsMap.get m slug).map (fun topic => mkTopicLink topic 1)),
      ∀ l2 ∈ ((List.insertionSort
        (fun a b : Topic => b.questionCount ≤ a.questionCount)
        ((JsMap.values m).filter (fun t =>
          t.slug ≠ cur.slug ∧ ¬ (jsDedup cur.relatedTopics).contains t.slug))).take
        (limit - ((jsDedup cur.relatedTopics).filterMap
          (fun slug => (JsMap.get m slug).map (fun topic => mkTopicLink topic 1))).length)).map
        (fun topic => mkTopicLink topic (0.7 : ℚ)),
      l1.href ≠ l2.href := by
    intro l1 hl1 l2 hl2
    rcases hL1mem l1 hl1 with ⟨s, hs, hhref1⟩
    rcases List.mem_map.mp hl2 with ⟨tp, htp, hl2eq⟩
    rw [hhref1, ← hl2eq]
    show _ ≠ getCanonicalUrl "topic" [("slug", tp.slug)]
    intro heq
    exact (hPmem tp htp).2 (topicHref_inj heq ▸ hs)
  have hbranch : (∀ l ∈ (if ((jsDedup cur.relatedTopics).filterMap
        (fun slug => (JsMap.get m slug).map (fun topic => mkTopicLink topic 1))).length < limit then
        ((jsDedup cur.relatedTopics).filterMap
          (fun slug => (JsMap.get m slug).map (fun topic => mkTopicLink topic 1))) ++
        ((List.insertionSort
          (fun a b : Topic => b.questionCount ≤ a.questionCount)
          ((JsMap.values m).filter (fun t =>
            t.slug ≠ cur.slug ∧ ¬ (jsDedup cur.relatedTopics).contains t.slug))).take
          (limit - ((jsDedup cur.relatedTopics).filterMap
            (fun slug => (JsMap.get m slug).map (fun topic => mkTopicLink topic 1))).length)).map
          (fun topic => mkTopicLink topic (0.7 : ℚ))
      else ((jsDedup cur.relatedTopics).filterMap
        (fun slug => (JsMap.get m slug).map (fun topic => mkTopicLink topic 1)))),
      l.href ≠ getCanonicalUrl "topic" [("slug", cur.slug)]) ∧
      (if ((jsDedup cur.relatedTopics).filterMap
        (fun slug => (JsMap.get m slug).map (fun topic => mkTopicLink topic 1))).length < limit then
        ((jsDedup cur.relatedTopics).filterMap
          (fun slug => (JsMap.get m slug).map (fun topic => mkTopicLink topic 1))) ++
        ((List.insertionSort
          (fun a b : Topic => b.questionCount ≤ a.questionCount)
          ((JsMap.values m).filter (fun t =>
            t.slug ≠ cur.slug ∧ ¬ (jsDedup cur.relatedTopics).contains t.slug))).take
          (limit - ((jsDedup cur.relatedTopics).filterMap
            (fun slug => (JsMap.get m slug).map (fun topic => mkTopicLink topic 1))).length)).map
          (fun topic => mkTopicLink topic (0.7 : ℚ))
      else ((jsDedup cur.relatedTopics).filterMap
        (fun slug => (JsMap.get m slug).map (fun topic => mkTopicLink topic 1)))).Pairwise
      (fun l1 l2 : InternalLink => l1.href ≠ l2.href) := by
    split
    · constructor
      · intro l hl
        rcases List.mem_append.mp hl with hmem | hmem
        · exact hL1self l hmem
        · exact hL2self l hmem
      · exact List.pairwise_append.mpr ⟨hL1pw, hL2pw, hcross⟩
    · exact ⟨hL1self, hL1pw⟩
  have hlinks : getRelatedTopics cur m limit =
      (if ((jsDedup cur.relatedTopics).filterMap
        (fun slug => (JsMap.get m slug).map (fun topic => mkTopicLink topic 1))).length < limit then
        ((jsDedup cur.relatedTopics).filterMap
          (fun slug => (JsMap.get m slug).map (fun topic => mkTopicLink topic 1))) ++
        ((List.insertionSort
          (fun a b : Topic => b.questionCount ≤ a.questionCount)
          ((JsMap.values m).filter (fun t =>
            t.slug ≠ cur.slug ∧ ¬ (jsDedup cur.relatedTopics).contains t.slug))).take
          (limit - ((jsDedup cur.relatedTopics).filterMap
            (fun slug => (JsMap.get m slug).map (fun topic => mkTopicLink topic 1))).length)).map
          (fun topic => mkTopicLink topic (0.7 : ℚ))
      else ((jsDedup cur.relatedTopics).filterMap
        (fun slug => (JsMap.get m slug).map (fun topic => mkTopicLink topic 1)))).take limit := rfl
  rw [hlinks]
  exact ⟨fun l hl => hbranch.1 l (List.mem_of_mem_take hl),
    (List.pairwise_map).mpr
      (List.Pairwise.sublist (List.take_sublist _ _) hbranch.2)⟩

theorem getRelatedProblems_no_self_nodup (cur : UniqueQuestion)
    (m : List (String × UniqueQuestion)) (limit : Nat)
    (hpw : (JsMap.values m).Pairwise
      (fun a b : UniqueQuestion => a.slug ≠ b.slug))
    (hkey : ∀ p ∈ m, p.2.slug = p.1)
    (hself : cur.slug ∉ cur.relatedQuestions) :
    (∀ l ∈ getRelatedProblems cur m limit,
      l.href ≠ getCanonicalUrl "problem" [("slug", cur.slug)]) ∧
    ((getRelatedProblems cur m limit).map (fun l => l.href)).Nodup := by
  have hf1 : ∀ (s : String) (l : InternalLink),
      (JsMap.get m s).map (fun question => mkProblemLink question 1) = some l →
      l.href = getCanonicalUrl "problem" [("slug", s)] := by
    intro s l hfa
    rcases Option.map_eq_some'.mp hfa with ⟨u, hget, hl⟩
    have hslug : u.slug = s := hkey (s, u) (JsMap.mem_of_get_eq_some hget)
    rw [← hl]
    show getCanonicalUrl "problem" [("slug", u.slug)] = _
    rw [hslug]
  have hf2 : ∀ (a : UniqueQuestion) (p : UniqueQuestion × Nat),
      (if a.slug = cur.slug then none
        else if (jsDedup cur.relatedQuestions).contains a.slug then none
        else
          if relatedProblemScore (jsDedup (cur.topics.map lowerStr)) cur a > 0 then
            some (a, relatedProblemScore (jsDedup (cur.topics.map lowerStr)) cur a)
          else none) = some p →
      p.1 = a ∧ a.slug ≠ cur.slug ∧
        ¬ (jsDedup cur.relatedQuestions).contains a.slug = true := by
    intro a p hfa
    by_cases hs1 : a.slug = cur.slug
    · rw [if_pos hs1] at hfa
      exact absurd hfa (by simp)
    · rw [if_neg hs1] at hfa
      by_cases hs2 : (jsDedup cur.relatedQuestions).contains a.slug = true
      · rw [if_pos hs2] at hfa
        exact absurd hfa (by simp)
      · rw [if_neg hs2] at hfa
        split at hfa
        · exact ⟨congrArg Prod.fst (Option.some.inj hfa).symm, hs1, hs2⟩
        · exact absurd hfa (by simp)
  have hL1mem : ∀ l ∈ (jsDedup cur.relatedQuestions).filterMap
      (fun slug => (JsMap.get m slug).map (fun question => mkProblemLink question 1)),
      ∃ s ∈ jsDedup cur.relatedQuestions,
        l.href = getCanonicalUrl "problem" [("slug", s)] := by
    intro l hl
    rcases List.mem_filterMap.mp hl with ⟨s, hs, hfa⟩
    exact ⟨s, hs, hf1 s l hfa⟩
  have hL1pw : ((jsDedup cur.relatedQuestions).filterMap
      (fun slug => (JsMap.get m slug).map
        (fun question => mkProblemLink question 1))).Pairwise
      (fun l1 l2 : InternalLink => l1.href ≠ l2.href) := by
    rw [List.pairwise_filterMap]
    have hnd : (jsDedup cur.relatedQuestions).Pairwise (fun a b => a ≠ b) :=
      jsDedup_nodup _
    refine hnd.imp ?_
    intro s s2 hss b hb b2 hb2
    rw [hf1 s b (Option.mem_def.mp hb), hf1 s2 b2 (Option.mem_def.mp hb2)]
    intro heq
    exact hss (problemHref_inj heq)
  have hL1self : ∀ l ∈ (jsDedup cur.relatedQuestions).filterMap
      (fun slug => (JsMap.get m slug).map (fun question => mkProblemLink question 1)),
      l.href ≠ getCanonicalUrl "problem" [("slug", cur.slug)] := by
    intro l hl
    rcases hL1mem l hl with ⟨s, hs, hhref⟩
    rw [hhref]
    intro heq
    apply hself
    have hseq : s = cur.slug := problemHref_inj heq
    rw [← hseq]
    exact mem_of_mem_jsDedup hs
  have hSmem : ∀ p ∈ (JsMap.values m).filterMap (fun question =>
      if question.slug = cur.slug then none
      else if (jsDedup cur.relatedQuestions).contains question.slug then none
      else
        if relatedProblemScore (jsDedup (cur.topics.map lowerStr)) cur question > 0 then
          some (question, relatedProblemScore
            (jsDedup (cur.topics.map lowerStr)) cur question)
        else none),
      p.1.slug ≠ cur.slug ∧
        ¬ (jsDedup cur.relatedQuestions).contains p.1.slug = true := by
    intro p hp
    rcases List.mem_filterMap.mp hp with ⟨a, _, hfa⟩
    obtain ⟨hfst, h1, h2⟩ := hf2 a p hfa
    rw [hfst]
    exact ⟨h1, h2⟩
  have hSpw := filterMap_fst_eq (fun a p hp => (hf2 a p hp).1) hpw
  have hTake := pairwise_sort_take (fun hab => hab.symm)
    (fun a b : UniqueQuestion × Nat => b.2 ≤ a.2) _
    (limit - ((jsDedup cur.relatedQuestions).filterMap
      (fun slug => (JsMap.get m slug).map
        (fun question => mkProblemLink question 1))).length) hSpw
  have hL2pw : (((List.insertionSort (fun a b : UniqueQuestion × Nat => b.2 ≤ a.2)
      ((JsMap.values m).filterMap (fun question =>
        if question.slug = cur.slug then none
        else if (jsDedup cur.relatedQuestions).contains question.slug then none
        else
          if relatedProblemScore (jsDedup (cur.topics.map lowerStr)) cur question > 0 then
            some (question, relatedProblemScore
              (jsDedup (cur.topics.map lowerStr)) cur question)
          else none))).take
      (limit - ((jsDedup cur.relatedQuestions).filterMap
        (fun slug => (JsMap.get m slug).map
          (fun question => mkProblemLink question 1))).length)).map
      (fun p => mkProblemLink p.1 (0.8 : ℚ))).Pairwise
      (fun l1 l2 : InternalLink => l1.href ≠ l2.href) := by
    refine (List.pairwise_map).mpr (hTake.imp ?_)
    intro a b hab heq
    exact hab (problemHref_inj heq)
  have hL2self : ∀ l ∈ ((List.insertionSort
      (fun a b : UniqueQuestion × Nat => b.2 ≤ a.2)
      ((JsMap.values m).filterMap (fun question =>
        if question.slug = cur.slug then none
        else if (jsDedup cur.relatedQuestions).contains question.slug then none
        else
          if relatedProblemScore (jsDedup (cur.topics.map lowerStr)) cur question > 0 then
            some (question, relatedProblemScore
              (jsDedup (cur.topics.map lowerStr)) cur question)
          else none))).take
      (limit - ((jsDedup cur.relatedQuestions).filterMap
        (fun slug => (JsMap.get m slug).map
          (fun question => mkProblemLink question 1))).length)).map
      (fun p => mkProblemLink p.1 (0.8 : ℚ)),
      l.href ≠ getCanonicalUrl "problem" [("slug", cur.slug)] := by
    intro l hl
    rcases List.mem_map.mp hl with ⟨p, hp, hl2⟩
    rw [← hl2]
    show getCanonicalUrl "problem" [("slug", p.1.slug)] ≠ _
    intro heq
    exact (hSmem p (mem_sort_take _ hp)).1 (problemHref_inj heq)
  have hcross : ∀ l1 ∈ (jsDedup cur.relatedQuestions).filterMap
      (fun slug => (JsMap.get m slug).map (fun question => mkProblemLink question 1)),
      ∀ l2 ∈ ((List.insertionSort
        (fun a b : UniqueQuestion × Nat => b.2 ≤ a.2)
        ((JsMap.values m).filterMap (fun question =>
          if question.slug = cur.slug then none
          else if (jsDedup cur.relatedQuestions).contains question.slug then none
          else
            if relatedProblemScore (jsDedup (cur.topics.map lowerStr)) cur question > 0 then
              some (question, relatedProblemScore
                (jsDedup (cur.topics.map lowerStr)) cur question)
            else none))).take
        (limit - ((jsDedup cur.relatedQuestions).filterMap
          (fun slug => (JsMap.get m slug).map
            (fun question => mkProblemLink question 1))).length)).map
        (fun p => mkProblemLink p.1 (0.8 : ℚ)),
      l1.href ≠ l2.href := by
    intro l1 hl1 l2 hl2
    rcases hL1mem l1 hl1 with ⟨s, hs, hhref1⟩
    rcases List.mem_map.mp hl2 with ⟨p, hp, hl2eq⟩
    rw [hhref1, ← hl2eq]
    show _ ≠ getCanonicalUrl "problem" [("slug", p.1.slug)]
    intro heq
    apply (hSmem p (mem_sort_take _ hp)).2
    apply contains_true_iff.mpr
    rw [← problemHref_inj heq]
    exact hs
  have hbranch : (∀ l ∈ (if ((jsDedup cur.relatedQuestions).filterMap
        (fun slug => (JsMap.get m slug).map
          (fun question => mkProblemLink question 1))).length < limit then
        ((jsDedup cur.relatedQuestions).filterMap
          (fun slug => (JsMap.get m slug).map
            (fun question => mkProblemLink question 1))) ++
        ((List.insertionSort (fun a b : UniqueQuestion × Nat => b.2 ≤ a.2)
          ((JsMap.values m).filterMap (fun question =>
            if question.slug = cur.slug then none
            else if (jsDedup cur.relatedQuestions).contains question.slug then none
            else
              if relatedProblemScore (jsDedup (cur.topics.map lowerStr)) cur question > 0 then
                some (question, relatedProblemScore
                  (jsDedup (cur.topics.map lowerStr)) cur question)
              else none))).take
          (limit - ((jsDedup cur.relatedQuestions).filterMap
            (fun slug => (JsMap.get m slug).map
              (fun question => mkProblemLink question 1))).length)).map
          (fun p => mkProblemLink p.1 (0.8 : ℚ))
      else ((jsDedup cur.relatedQuestions).filterMap
        (fun slug => (JsMap.get m slug).map
          (fun question => mkProblemLink question 1)))),
      l.href ≠ getCanonicalUrl "problem" [("slug", cur.slug)]) ∧
      (if ((jsDedup cur.relatedQuestions).filterMap
        (fun slug => (JsMap.get m slug).map
          (fun question => mkProblemLink question 1))).length < limit then
        ((jsDedup cur.relatedQuestions).filterMap
          (fun slug => (JsMap.get m slug).map
            (fun question => mkProblemLink question 1))) ++
        ((List.insertionSort (fun a b : UniqueQuestion × Nat => b.2 ≤ a.2)
          ((JsMap.values m).filterMap (fun question =>
            if question.slug = cur.slug then none
            else if (jsDedup cur.relatedQuestions).contains question.slug then none
            else
              if relatedProblemScore (jsDedup (cur.topics.map lowerStr)) cur question > 0 then
                some (question, relatedProblemScore
                  (jsDedup (cur.topics.map lowerStr)) cur question)
              else none))).take
          (limit - ((jsDedup cur.relatedQuestions).filterMap
            (fun slug => (JsMap.get m slug).map
              (fun question => mkProblemLink question 1))).length)).map
          (fun p => mkProblemLink p.1 (0.8 : ℚ))
      else ((jsDedup cur.relatedQuestions).filterMap
        (fun slug => (JsMap.get m slug).map
          (fun question => mkProblemLink question 1)))).Pairwise
      (fun l1 l2 : InternalLink => l1.href ≠ l2.href) := by
    split
    · constructor
      · intro l hl
        rcases List.mem_append.mp hl with hmem | hmem
        · exact hL1self l hmem
        · exact hL2self l hmem
      · exact List.pairwise_append.mpr ⟨hL1pw, hL2pw, hcross⟩
    · exact ⟨hL1self, hL1pw⟩
  have hlinks : getRelatedProblems cur m limit =
      (if ((jsDedup cur.relatedQuestions).filterMap
        (fun slug => (JsMap.get m slug).map
          (fun question => mkProblemLink question 1))).length < limit then
        ((jsDedup cur.relatedQuestions).filterMap
          (fun slug => (JsMap.get m slug).map
            (fun question => mkProblemLink question 1))) ++
        ((List.insertionSort (fun a b : UniqueQuestion × Nat => b.2 ≤ a.2)
          ((JsMap.values m).filterMap (fun question =>
            if question.slug = cur.slug then none
            else if (jsDedup cur.relatedQuestions).contains question.slug then none
            else
              if relatedProblemScore (jsDedup (cur.topics.map lowerStr)) cur question > 0 then
                some (question, relatedProblemScore
                  (jsDedup (cur.topics.map lowerStr)) cur question)
              else none))).take
          (limit - ((jsDedup cur.relatedQuestions).filterMap
            (fun slug => (JsMap.get m slug).map
              (fun question => mkProblemLink question 1))).length)).map
          (fun p => mkProblemLink p.1 (0.8 : ℚ))
      else ((jsDedup cur.relatedQuestions).filterMap
        (fun slug => (JsMap.get m slug).map
          (fun question => mkProblemLink question 1)))).take limit := rfl
  rw [hlinks]
  exact ⟨fun l hl => hbranch.1 l (List.mem_of_mem_take hl),
    (List.pairwise_map).mpr
      (List.Pairwise.sublist (List.take_sublist _ _) hbranch.2)⟩

theorem aggregateTopics_entry_slug {qs : List QuestionWithDetails}
    {tl : List String} {p : String × Topic}
    (hp : p ∈ aggregateTopics qs tl) : p.2.slug = p.1 := by
  have hp2 : p ∈ (tl.foldl (fun m topicName =>
      let topicQuestions := qs.filter (fun q =>
        q.topics.any (fun t => lowerStr t = lowerStr topicName))
      if topicQuestions.length = 0 then m
      else JsMap.set m (hyphenate (lowerStr topicName))
        (mkTopic topicName qs topicQuestions)) []) :=
    (List.perm_insertionSort _ _).subset hp
  refine foldl_preserve
    (P := fun m : List (String × Topic) => ∀ r ∈ m, r.2.slug = r.1)
    ?_ tl [] (by simp) p hp2
  intro acc b hacc
  dsimp only
  by_cases hlen : (qs.filter (fun q =>
      q.topics.any (fun t => lowerStr t = lowerStr b))).length = 0
  · rw [if_pos hlen]; exact hacc
  · rw [if_neg hlen]
    intro r hr
    rcases JsMap.mem_set hr with he | he
    · rw [he]
      rfl
    · exact hacc r he

theorem aggregateTopics_nodupKeys (qs : List QuestionWithDetails)
    (tl : List String) :
    (JsMap.keysList (aggregateTopics qs tl)).Nodup := by
  have hperm : (aggregateTopics qs tl).Perm
      (tl.foldl (fun m topicName =>
        let topicQuestions := qs.filter (fun q =>
          q.topics.any (fun t => lowerStr t = lowerStr topicName))
        if topicQuestions.length = 0 then m
        else JsMap.set m (hyphenate (lowerStr topicName))
          (mkTopic topicName qs topicQuestions)) []) :=
    List.perm_insertionSort _ _
  have hfold : (JsMap.keysList (tl.foldl (fun m topicName =>
      let topicQuestions := qs.filter (fun q =>
        q.topics.any (fun t => lowerStr t = lowerStr topicName))
      if topicQuestions.length = 0 then m
      else JsMap.set m (hyphenate (lowerStr topicName))
        (mkTopic topicName qs topicQuestions)) [])).Nodup := by
    refine foldl_preserve
      (P := fun m : List (String × Topic) => (JsMap.keysList m).Nodup)
      ?_ tl [] ?_
    · intro acc b h
      dsimp only
      by_cases hlen : (qs.filter (fun q =>
          q.topics.any (fun t => lowerStr t = lowerStr b))).length = 0
      · rw [if_pos hlen]; exact h
      · rw [if_neg hlen]; exact JsMap.nodupKeys_set _ _ h
    · simp [JsMap.keysList]
  exact ((List.Perm.map (fun p : String × Topic => p.1) hperm).nodup_iff).mpr hfold

theorem findRelatedQuestions_not_self (qs : List QuestionWithDetails)
    (target : QuestionWithDetails) (limit : Nat) :
    target.slug ∉ findRelatedQuestions qs target limit := by
  unfold findRelatedQuestions
  intro hmem
  rcases List.mem_map.mp hmem with ⟨p, hp, hps⟩
  have hp3 : p ∈ qs.foldl (fun m q =>
      if q.slug = target.slug then m
      else
        let overlap := (q.topics.filter (fun t =>
          target.topics.any (fun tt => lowerStr tt = lowerStr t))).length
        let score := (if q.difficulty = target.difficulty then 1 else 0) +
          overlap * 2
        if score > 0 then JsMap.set m q.slug score else m) [] :=
    (List.perm_insertionSort _ _).subset (List.mem_of_mem_take hp)
  have hinv : ∀ r ∈ qs.foldl (fun m q =>
      if q.slug = target.slug then m
      else
        let overlap := (q.topics.filter (fun t =>
          target.topics.any (fun tt => lowerStr tt = lowerStr t))).length
        let score := (if q.difficulty = target.difficulty then 1 else 0) +
          overlap * 2
        if score > 0 then JsMap.set m q.slug score else m) [],
      r.1 ≠ target.slug := by
    refine foldl_preserve
      (P := fun m : List (String × Nat) => ∀ r ∈ m, r.1 ≠ target.slug)
      ?_ qs [] (by simp)
    intro acc q hacc
    dsimp only
    by_cases hslug : q.slug = target.slug
    · simp only [if_pos hslug]
      exact hacc
    · simp only [if_neg hslug]
      split
      · split
        · intro r hr
          rcases JsMap.mem_set hr with he | he
          · rw [he]; exact hslug
          · exact hacc r he
        · exact hacc
      · split
        · intro r hr
          rcases JsMap.mem_set hr with he | he
          · rw [he]; exact hslug
          · exact hacc r he
        · exact hacc
  exact hinv p hp3 hps

theorem deduplicateQuestions_entry_inv {qs : List QuestionWithDetails}
    {p : String × UniqueQuestion} (hp : p ∈ deduplicateQuestions qs) :
    p.2.slug = p.1 ∧ p.1 ∉ p.2.relatedQuestions := by
  have hp2 : p ∈ (qs.foldl (fun m q =>
      if (JsMap.get m q.slug).isSome then m
      else
        let companies := List.insertionSort
          (fun a b : CompanyFrequency => b.frequency ≤ a.frequency)
          (JsMap.getD (questionCompaniesMap qs) q.slug [])
        let relatedSlugs := findRelatedQuestions qs q 5
        let seoDescription := generateQuestionDescription q companies
        JsMap.set m q.slug
          { id := q.id, slug := q.slug, title := q.title,
            difficulty := q.difficulty, topics := q.topics,
            acceptanceRate := q.acceptance_rate, companies,
            isPremium := q.isPremiumRaw = "Y", leetcodeUrl := q.link,
            seoDescription, relatedQuestions := relatedSlugs }) []) :=
    (List.perm_insertionSort _ _).subset hp
  refine foldl_preserve
    (P := fun m : List (String × UniqueQuestion) => ∀ r ∈ m,
      r.2.slug = r.1 ∧ r.1 ∉ r.2.relatedQuestions)
    ?_ qs [] (by simp) p hp2
  intro acc b hacc
  dsimp only
  split
  · exact hacc
  · intro r hr
    rcases JsMap.mem_set hr with he | he
    · rw [he]
      exact ⟨rfl, findRelatedQuestions_not_self qs b 5⟩
    · exact hacc r he

theorem deduplicateQuestions_nodupKeys (qs : List QuestionWithDetails) :
    (JsMap.keysList (deduplicateQuestions qs)).Nodup := by
  have hperm : (deduplicateQuestions qs).Perm
      (qs.foldl (fun m q =>
        if (JsMap.get m q.slug).isSome then m
        else
          let companies := List.insertionSort
            (fun a b : CompanyFrequency => b.frequency ≤ a.frequency)
            (JsMap.getD (questionCompaniesMap qs) q.slug [])
          let relatedSlugs := findRelatedQuestions qs q 5
          let seoDescription := generateQuestionDescription q companies
          JsMap.set m q.slug
            { id := q.id, slug := q.slug, title := q.title,
              difficulty := q.difficulty, topics := q.topics,
              acceptanceRate := q.acceptance_rate, companies,
              isPremium := q.isPremiumRaw = "Y", leetcodeUrl := q.link,
              seoDescription, relatedQuestions := relatedSlugs }) []) :=
    List.perm_insertionSort _ _
  have hfold : (JsMap.keysList (qs.foldl (fun m q =>
      if (JsMap.get m q.slug).isSome then m
      else
        let companies := List.insertionSort
          (fun a b : CompanyFrequency => b.frequency ≤ a.frequency)
          (JsMap.getD (questionCompaniesMap qs) q.slug [])
        let relatedSlugs := findRelatedQuestions qs q 5
        let seoDescription := generateQuestionDescription q companies
        JsMap.set m q.slug
          { id := q.id, slug := q.slug, title := q.title,
            difficulty := q.difficulty, topics := q.topics,
            acceptanceRate := q.acceptance_rate, companies,
            isPremium := q.isPremiumRaw = "Y", leetcodeUrl := q.link,
            seoDescription, relatedQuestions := relatedSlugs })
      ([] : List (String × UniqueQuestion)))).Nodup := by
    refine foldl_preserve
      (P := fun m : List (String × UniqueQuestion) =>
        (JsMap.keysList m).Nodup)
      ?_ qs [] ?_
    · intro acc b h
      dsimp only
      split
      · exact h
      · exact JsMap.nodupKeys_set _ _ h
    · simp [JsMap.keysList]
  exact ((List.Perm.map (fun p : String × UniqueQuestion => p.1)
    hperm).nodup_iff).mpr hfold

/-- Claim C7 counterexample: in the snapshot built from a record whose
topic list holds two spellings that normalize to the same slug, the topic
stored under that slug lists its own slug among its related topics, and
`getRelatedTopics` then returns a link targeting the topic itself. -/
theorem c7_counterexample_topic_self_link :
    (JsMap.get collideCache.topics "hash-table").map
      (fun t => t.relatedTopics) = some ["hash-table"] ∧
    ((JsMap.get collideCache.topics "hash-table").map (fun t =>
      ((getRelatedTopics t collideCache.topics 6).map (fun l => l.href)).contains
        (getCanonicalUrl "topic" [("slug", t.slug)]))) = some true := by
  decide

/-- Claim C7 as amended: over every built snapshot and every limit, all
three related-content lists contain no two links with the same target,
and `getRelatedCompanies` and `getRelatedProblems` never return a link
targeting the entity itself; `getRelatedTopics` never returns a self link
provided the precomputed related-topics list of the topic does not
contain the slug of the topic itself (which can fail only when two
distinct topic spellings normalize to the same slug). -/
theorem c7_amended_related_lists (qs : List QuestionWithDetails)
    (cl tl : List String) (limit : Nat) :
    (∀ slug, OptHolds (fun c =>
        (∀ l ∈ getRelatedCompanies c (buildAggregatedData qs cl tl).companies limit,
          l.href ≠ getCanonicalUrl "company" [("slug", c.slug)]) ∧
        ((getRelatedCompanies c (buildAggregatedData qs cl tl).companies limit).map
          (fun l => l.href)).Nodup)
      (JsMap.get (buildAggregatedData qs cl tl).companies slug)) ∧
    (∀ slug t, JsMap.get (buildAggregatedData qs cl tl).topics slug = some t →
      t.slug ∉ t.relatedTopics →
      (∀ l ∈ getRelatedTopics t (buildAggregatedData qs cl tl).topics limit,
        l.href ≠ getCanonicalUrl "topic" [("slug", t.slug)]) ∧
      ((getRelatedTopics t (buildAggregatedData qs cl tl).topics limit).map
        (fun l => l.href)).Nodup) ∧
    (∀ slug, OptHolds (fun u =>
        (∀ l ∈ getRelatedProblems u (buildAggregatedData qs cl tl).questions limit,
          l.href ≠ getCanonicalUrl "problem" [("slug", u.slug)]) ∧
        ((getRelatedProblems u (buildAggregatedData qs cl tl).questions limit).map
          (fun l => l.href)).Nodup)
      (JsMap.get (buildAggregatedData qs cl tl).questions slug)) := by
  have hcm : (buildAggregatedData qs cl tl).companies =
    aggregateCompanies qs cl := rfl
  have htm : (buildAggregatedData qs cl tl).topics =
    aggregateTopics qs tl := rfl
  have hqm : (buildAggregatedData qs cl tl).questions =
    deduplicateQuestions qs := rfl
  refine ⟨?_, ?_, ?_⟩
  · intro slug
    cases hval : JsMap.get (buildAggregatedData qs cl tl).companies slug with
    | none => trivial
    | some c =>
      show _ ∧ _
      refine getRelatedCompanies_no_self_nodup c _ limit ?_
      rw [hcm]
      exact values_pairwise_of_nodupKeys (fun c : Company => c.slug)
        (aggregateCompanies_nodupKeys qs cl)
        (fun p hp => by rw [aggregateCompanies_entry_eq hp]; rfl)
  · intro slug t hval hselft
    refine getRelatedTopics_no_self_nodup t _ limit ?_ ?_ hselft
    · rw [htm]
      exact values_pairwise_of_nodupKeys (fun t : Topic => t.slug)
        (aggregateTopics_nodupKeys qs tl)
        (fun p hp => aggregateTopics_entry_slug hp)
    · rw [htm]
      exact fun p hp => aggregateTopics_entry_slug hp
  · intro slug
    cases hval : JsMap.get (buildAggregatedData qs cl tl).questions slug with
    | none => trivial
    | some u =>
      have hmem : (slug, u) ∈ deduplicateQuestions qs :=
        JsMap.mem_of_get_eq_some (by rw [← hqm]; exact hval)
      have hinv := deduplicateQuestions_entry_inv hmem
      show _ ∧ _
      refine getRelatedProblems_no_self_nodup u _ limit ?_ ?_ ?_
      · rw [hqm]
        exact values_pairwise_of_nodupKeys (fun u : UniqueQuestion => u.slug)
          (deduplicateQuestions_nodupKeys qs)
          (fun p hp => (deduplicateQuestions_entry_inv hp).1)
      · rw [hqm]
        exact fun p hp => (deduplicateQuestions_entry_inv hp).1
      · have hslug : u.slug = slug := hinv.1
        rw [hslug]
        exact hinv.2

set_option maxRecDepth 10000 in
/-- Witness for claim C7 on the two-sum example snapshot at the array
topic: the lookup succeeds, the amended proviso holds, the related list
has pairwise distinct targets and does not target the topic itself. -/
theorem c7_amended_related_lists_witness :
    JsMap.get exampleCache.topics "array" =
      some ((JsMap.get exampleCache.topics "array").getD placeholderTopic) ∧
    ((JsMap.get exampleCache.topics "array").getD placeholderTopic).slug ∉
      ((JsMap.get exampleCache.topics "array").getD placeholderTopic).relatedTopics ∧
    ((getRelatedTopics
        ((JsMap.get exampleCache.topics "array").getD placeholderTopic)
        exampleCache.topics 6).map (fun l => l.href)).Nodup ∧
    ¬ ((getRelatedTopics
        ((JsMap.get exampleCache.topics "array").getD placeholderTopic)
        exampleCache.topics 6).map (fun l => l.href)).contains
      (getCanonicalUrl "topic" [("slug",
        ((JsMap.get exampleCache.topics "array").getD placeholderTopic).slug)]) =
      true := by
  have h := (c7_amended_related_lists [qGoogle, qAmazon] ["google", "amazon"]
    ["Array", "Hash Table"] 6).2.1 "array"
    ((JsMap.get exampleCache.topics "array").getD placeholderTopic)
    (by decide) (by decide)
  refine ⟨by decide, by decide, h.2, ?_⟩
  intro hc
  rcases List.mem_map.mp (contains_true_iff.mp hc) with ⟨l, hl, hlh⟩
  exact h.1 l hl hlh

/-- Witness for claim C3: the amended theorem applied to the concrete
malformed input, with the conclusion instantiated at the only company. -/
theorem c3_amended_no_validation_witness :
    (buildAggregatedData [qBadDifficulty] ["g"] []).stats.totalQuestionRecords =
      ([qBadDifficulty] : List QuestionWithDetails).length ∧
    OptHolds (fun c =>
        c.questionCount = (([qBadDifficulty] : List QuestionWithDetails).filter
          (fun q => q.company = "g")).length ∧
        c.difficultyBreakdown.easy + c.difficultyBreakdown.medium +
          c.difficultyBreakdown.hard =
          (([qBadDifficulty] : List QuestionWithDetails).filter
            (fun q => q.company = "g")).countP recognizedDifficulty)
      (JsMap.get (buildAggregatedData [qBadDifficulty] ["g"] []).companies "g") :=
  ⟨(c3_amended_no_validation [qBadDifficulty] ["g"] []).1,
    (c3_amended_no_validation [qBadDifficulty] ["g"] []).2 "g"⟩

/-- Witness for claim C6: the pipeline equality applied at a concrete
company and company map. -/
theorem c6_related_companies_pipeline_witness :
    getRelatedCompanies (mkCompany "google" [qGoogle])
      (aggregateCompanies [qGoogle, qAmazon] ["google", "amazon"]) 6 =
    specRelatedCompanies (mkCompany "google" [qGoogle])
      (aggregateCompanies [qGoogle, qAmazon] ["google", "amazon"]) 6 :=
  c6_related_companies_pipeline (mkCompany "google" [qGoogle])
    (aggregateCompanies [qGoogle, qAmazon] ["google", "amazon"]) 6

/-- Witness for claim C8: the sortedness statement instantiated at the
two-record example and its two-sum entry, plus the concrete ordering. -/
theorem c8_dedup_companies_frequency_order_witness :
    OptHolds (fun u => u.companies.Pairwise
        (fun a b : CompanyFrequency => b.frequency ≤ a.frequency))
      (JsMap.get (deduplicateQuestions [qGoogle, qAmazon]) "two-sum") ∧
    ((JsMap.get (deduplicateQuestions [qGoogle, qAmazon]) "two-sum").map
      (fun u => u.companies.map (fun cf => (cf.company, cf.frequency)))) =
      some [("google", (80 : ℚ)), ("amazon", (40 : ℚ))] :=
  ⟨c8_dedup_companies_frequency_order.1 [qGoogle, qAmazon] "two-sum",
    c8_dedup_companies_frequency_order.2⟩

/-- Witness for claim C10: the bound instantiated at the google company of
the two-record example. -/
theorem c10_unique_le_total_witness :
    OptHolds (fun c => c.uniqueQuestionCount ≤ c.questionCount)
      (JsMap.get (aggregateCompanies [qGoogle, qAmazon] ["google", "amazon"])
        "google") :=
  c10_unique_le_total [qGoogle, qAmazon] ["google", "amazon"] "google"
